import Mathlib

/-!
win31wm: key bindings and action parsing.

A shallow embedding of `bind_key` (keyboard.c), the binding lookup of
`handle_key_event` (keyboard.c) and `parse_action` (util.c), with the
properties of the binding table and of the two parsers proved about it.

C strings are lists of `Char` (the characters before the terminating NUL),
C `int`/`long` values are `Int`, and the requests sent to the X server are
collected in a list.
-/

namespace Win31wm

/-! ## libc -/

/-- A C string: the characters before the terminating NUL. -/
abbrev CString := List Char

/-- The libc function `tolower` in the C locale. -/
def tolower (c : Char) : Char :=
  if 'A' ≤ c ∧ c ≤ 'Z' then Char.ofNat (c.toNat + 32) else c

/-- The libc function `toupper` in the C locale. -/
def toupper (c : Char) : Char :=
  if 'a' ≤ c ∧ c ≤ 'z' then Char.ofNat (c.toNat - 32) else c

/-- The test `strcasecmp(a, b) == 0`. -/
def strcasecmp (a b : CString) : Bool :=
  a.map tolower == b.map tolower

/-- The test `strncasecmp(a, b, n) == 0`. -/
def strncasecmp (a b : CString) (n : Nat) : Bool :=
  (a.take n).map tolower == (b.take n).map tolower

/-- The libc function `strchr(s, c)`: `none` for a NULL result, otherwise the text before the first
`c` and the text after it (the source overwrites that `c` with NUL and
continues at `sep + 1`). -/
def strchr (s : CString) (c : Char) : Option (CString × CString) :=
  match s with
  | [] => none
  | x :: xs =>
    if x = c then some ([], xs)
    else match strchr xs c with
      | none => none
      | some (before, after) => some (x :: before, after)

/-- The libc predicate `isspace` in the C locale. -/
def isspace (c : Char) : Bool :=
  c = ' ' || c = '\t' || c = '\n' || c = '\x0b' || c = '\x0c' || c = '\r'

/-- The libc predicate `isdigit`. -/
def isdigit (c : Char) : Bool :=
  decide ('0' ≤ c) && decide (c ≤ '9')

/-- Value of a decimal digit character, `c - '0'`. -/
def digit_value (c : Char) : Nat := c.toNat - 48

/-- The constant `LONG_MAX` of an LP64 platform. -/
def LONG_MAX : Int := 9223372036854775807

/-- The constant `LONG_MIN` of an LP64 platform. -/
def LONG_MIN : Int := -9223372036854775808

/-- The call `strtol(s, NULL, 10)` after `errno = 0`, as ISO C describes it:
leading white space is skipped, an optional sign is read, then the longest
run of decimal digits; the rest of the text is ignored. The result is the
returned `long` and whether `errno` is non-zero afterwards (`ERANGE`, when
the value does not fit a `long`). With no digits at all the result is 0 and
`errno` is left alone. -/
def strtol (s : CString) : Int × Bool :=
  let s1 := s.dropWhile isspace
  let signed : Bool × CString :=
    match s1 with
    | [] => (false, [])
    | c :: t =>
      if c = '-' then (true, t)
      else if c = '+' then (false, t)
      else (false, c :: t)
  let digits := signed.2.takeWhile isdigit
  let magnitude : Nat := digits.foldl (fun acc d => acc * 10 + digit_value d) 0
  let value : Int := if signed.1 then -(magnitude : Int) else (magnitude : Int)
  if value > LONG_MAX then (LONG_MAX, true)
  else if value < LONG_MIN then (LONG_MIN, true)
  else (value, false)

/-- Conversion of a `long` to a 32-bit `int` (the assignment `iarg = strtol(...)`). -/
def long_to_int (v : Int) : Int :=
  (v + 2147483648) % 4294967296 - 2147483648

/-! ## progman.h and Xlib -/

/-- Modelled from the spec: the constants of `progman.h`, which is not among
the sources. The spec names the action kinds (NONE, INVALID, CYCLE,
REVERSE_CYCLE, DESK, DESK_NEXT, DESK_PREVIOUS, MOVE, MOVE_NEXT,
MOVE_PREVIOUS, CLOSE, EXEC, LAUNCHER, RESTART, QUIT, DRAG, FULLSCREEN,
ICONIFY), the keyboard trigger class and the "all desks" sentinel; their
numeric values are left open here. -/
structure Header where
  ACTION_NONE : Int
  ACTION_INVALID : Int
  ACTION_CYCLE : Int
  ACTION_REVERSE_CYCLE : Int
  ACTION_DESK : Int
  ACTION_DESK_NEXT : Int
  ACTION_DESK_PREVIOUS : Int
  ACTION_MOVE : Int
  ACTION_MOVE_NEXT : Int
  ACTION_MOVE_PREVIOUS : Int
  ACTION_CLOSE : Int
  ACTION_EXEC : Int
  ACTION_LAUNCHER : Int
  ACTION_RESTART : Int
  ACTION_QUIT : Int
  ACTION_DRAG : Int
  ACTION_FULL_SCREEN : Int
  ACTION_ICONIFY : Int
  BINDING_TYPE_KEYBOARD : Int
  DESK_ALL : Int

/-- Modelled from the spec: a `progman.h` whose action kinds are numbered
from 0 in the order the spec lists them (so that DESK_NEXT is DESK + 1 and
DESK_PREVIOUS is DESK + 2, likewise for MOVE), with the keyboard trigger
class 0 and the "all desks" sentinel -1. -/
def progman_h : Header where
  ACTION_NONE := 0
  ACTION_INVALID := 1
  ACTION_CYCLE := 2
  ACTION_REVERSE_CYCLE := 3
  ACTION_DESK := 4
  ACTION_DESK_NEXT := 5
  ACTION_DESK_PREVIOUS := 6
  ACTION_MOVE := 7
  ACTION_MOVE_NEXT := 8
  ACTION_MOVE_PREVIOUS := 9
  ACTION_CLOSE := 10
  ACTION_EXEC := 11
  ACTION_LAUNCHER := 12
  ACTION_RESTART := 13
  ACTION_QUIT := 14
  ACTION_DRAG := 15
  ACTION_FULL_SCREEN := 16
  ACTION_ICONIFY := 17
  BINDING_TYPE_KEYBOARD := 0
  DESK_ALL := -1

/-- The case labels of the `switch` in `parse_action` are pairwise distinct
(a C compiler rejects the function otherwise). -/
def Header.labels_distinct (H : Header) : Prop :=
  H.ACTION_DESK ≠ H.ACTION_EXEC ∧ H.ACTION_MOVE ≠ H.ACTION_EXEC ∧
  H.ACTION_DESK ≠ H.ACTION_INVALID ∧ H.ACTION_MOVE ≠ H.ACTION_INVALID ∧
  H.ACTION_EXEC ≠ H.ACTION_INVALID ∧ H.ACTION_DESK ≠ H.ACTION_MOVE

instance (H : Header) : Decidable H.labels_distinct := by
  unfold Header.labels_distinct; infer_instance

/-- The modifier bit `ShiftMask` of X11/X.h. -/
def ShiftMask : Nat := 1
/-- The modifier bit `ControlMask` of X11/X.h. -/
def ControlMask : Nat := 4
/-- The modifier bit `Mod1Mask` of X11/X.h. -/
def Mod1Mask : Nat := 8
/-- The modifier bit `Mod2Mask` of X11/X.h. -/
def Mod2Mask : Nat := 16
/-- The modifier bit `Mod3Mask` of X11/X.h. -/
def Mod3Mask : Nat := 32
/-- The modifier bit `Mod4Mask` of X11/X.h. -/
def Mod4Mask : Nat := 64

/-- The two Xlib lookups `bind_key` calls: `XStringToKeysym` (0, `NoSymbol`,
for a name the keysym table does not have) and `XKeysymToKeycode`. -/
structure Xlib where
  XStringToKeysym : CString → Nat
  XKeysymToKeycode : Nat → Nat

/-- A request `bind_key` sends to the X server. -/
inductive XCall where
  | XGrabKey (keycode : Nat) (modifiers : Int)
  | XUngrabKey (keycode : Nat) (modifiers : Int)
deriving DecidableEq, Repr

/-! ## Actions and bindings -/

deriving instance DecidableEq for Except

/-- The diagnostics of the two parsers, one per `warnx` that precedes a NULL
result. -/
inductive ParseError where
  | UnknownModifier
  | UnknownKey
  | InvalidAction
  | BadArgument
  | UnexpectedArgument
  | MissingArgument
deriving DecidableEq, Repr

/-- The three fields `parse_action` assigns in the record it allocates
(`action`, `iarg`, `sarg`; `none` is a NULL `sarg`). -/
structure Action where
  action : Int
  iarg : Int
  sarg : Option CString
deriving DecidableEq, Repr

/-- Modelled from the spec: the record `action_t` of `progman.h`, one slot of
`key_actions`, with the fields `bind_key` assigns. The fields are `Int` so
that the unbound marker -1 is distinct from every key symbol and modifier
mask. -/
structure action_t where
  key : Int
  mod : Int
  button : Int
  type : Int
  action : Int
  iarg : Int
  sarg : Option CString
deriving DecidableEq, Repr

/-! ## util.c -/

/-- The function `parse_action` of util.c. The first argument only labels
the diagnostics. -/
def parse_action (H : Header) (_label : CString) (action : CString) :
    Except ParseError Action :=
  let split : CString × Option CString :=
    match strchr action ' ' with
    | some (word, rest) => (word, some rest)
    | none => (action, none)
  let taction := split.1
  let targ := split.2
  let iaction : Int :=
    if taction = "cycle".toList then H.ACTION_CYCLE
    else if taction = "reverse_cycle".toList then H.ACTION_REVERSE_CYCLE
    else if taction = "desk".toList then H.ACTION_DESK
    else if taction = "close".toList then H.ACTION_CLOSE
    else if taction = "exec".toList then H.ACTION_EXEC
    else if taction = "launcher".toList then H.ACTION_LAUNCHER
    else if taction = "restart".toList then H.ACTION_RESTART
    else if taction = "quit".toList then H.ACTION_QUIT
    else if taction = "drag".toList then H.ACTION_DRAG
    else if taction = "fullscreen".toList then H.ACTION_FULL_SCREEN
    else if taction = "iconify".toList then H.ACTION_ICONIFY
    else if taction = "move".toList then H.ACTION_MOVE
    else if taction.head? = some '\n' ∨ taction = [] then H.ACTION_NONE
    else H.ACTION_INVALID
  if iaction = H.ACTION_DESK ∨ iaction = H.ACTION_MOVE then
    match targ with
    | none => .error .MissingArgument
    | some targ =>
      if targ = "next".toList then .ok ⟨iaction + 1, 0, none⟩
      else if targ = "previous".toList then .ok ⟨iaction + 2, 0, none⟩
      else if targ = "all".toList then .ok ⟨iaction, H.DESK_ALL, none⟩
      else
        let r := strtol targ
        if r.2 then .error .BadArgument
        else .ok ⟨iaction, long_to_int r.1, none⟩
  else if iaction = H.ACTION_EXEC then
    match targ with
    | none => .error .MissingArgument
    | some targ => .ok ⟨iaction, 0, some targ⟩
  else if iaction = H.ACTION_INVALID then .error .InvalidAction
  else
    match targ with
    | some _ => .error .UnexpectedArgument
    | none => .ok ⟨iaction, 0, none⟩

/-! ## keyboard.c -/

/-- The globals `bind_key` reads and writes: the table `key_actions`
(`nkey_actions` is its length) and the requests sent to the X server so
far, oldest first. -/
structure State where
  key_actions : List action_t
  calls : List XCall
deriving DecidableEq, Repr

/-- The `if`/`else if` chain inside the modifier loop of `bind_key`: the bit
a segment adds to `mod`, `none` when no alias matches. -/
def modifier_bit (tkey : CString) : Option Nat :=
  if strcasecmp tkey "shift".toList then some ShiftMask
  else if strcasecmp tkey "control".toList || strcasecmp tkey "ctrl".toList ||
      strcasecmp tkey "ctl".toList then some ControlMask
  else if strcasecmp tkey "alt".toList || strcasecmp tkey "meta".toList ||
      strcasecmp tkey "mod1".toList then some Mod1Mask
  else if strcasecmp tkey "mod2".toList then some Mod2Mask
  else if strcasecmp tkey "mod3".toList then some Mod3Mask
  else if strcasecmp tkey "super".toList || strcasecmp tkey "win".toList ||
      strcasecmp tkey "mod4".toList then some Mod4Mask
  else none

/-- The loop `while ((sep = strchr(tkey, '+')))` of `bind_key`, from the
current `tkey` and `mod`: the final `mod` and the text left in `tkey`, or the
failure on an unknown modifier. Every round consumes a `+`, so a counter
that starts at the length of the text never runs out. -/
def modifier_loop : Nat → CString → Nat → Except ParseError (Nat × CString)
  | 0, tkey, mod => .ok (mod, tkey)
  | fuel + 1, tkey, mod =>
    match strchr tkey '+' with
    | none => .ok (mod, tkey)
    | some (segment, rest) =>
      match modifier_bit segment with
      | some bit => modifier_loop fuel rest (mod ||| bit)
      | none => .error .UnknownModifier

/-- The key-or-button step of `bind_key`, on the text left after the
modifiers: the pair `(k, button)`. -/
def bind_key_trigger (X : Xlib) (tkey : CString) : Except ParseError (Nat × Nat) :=
  if strncasecmp tkey "mouse".toList 5 && decide (tkey.getD 5 '\x00' > '0') &&
      decide (tkey.getD 5 '\x00' ≤ '9') then
    .ok (0, digit_value (tkey.getD 5 '\x00'))
  else if tkey ≠ [] then
    let name := if tkey.length = 1 then tkey.map tolower else tkey
    let k := X.XStringToKeysym name
    if k = 0 then .error .UnknownKey else .ok (k, 0)
  else .ok (0, 0)

/-- A `for` loop over the table that stops at the first slot satisfying the
test: its index, or `none`. -/
def find_binding (test : action_t → Bool) : List action_t → Option Nat
  | [] => none
  | a :: rest =>
    if test a then some 0
    else match find_binding test rest with
      | none => none
      | some x => some (x + 1)

/-- The descriptor half of `bind_key` (the modifier loop, then the key or
button): `(k, mod, button)`, or the failure. -/
def bind_key_descriptor (X : Xlib) (key : CString) : Except ParseError (Nat × Nat × Nat) :=
  match modifier_loop key.length key 0 with
  | .error e => .error e
  | .ok (mod, tkey) =>
    match bind_key_trigger X tkey with
    | .error e => .error e
    | .ok (k, button) => .ok (k, mod, button)

/-- The test of the overwrite loop of `bind_key`: the slot has this trigger
class, key symbol, modifier mask and button. -/
def same_trigger (type : Int) (k mod button : Nat) (a : action_t) : Bool :=
  a.type == type && a.key == (k : Int) && a.mod == (mod : Int) && a.button == (button : Int)

/-- The slot `bind_key` fills in at `aidx`: the unbound marker in `key` and
`mod` for the kind ACTION_NONE, the parsed trigger otherwise, and in both
cases the trigger class and the three fields of the parsed action. -/
def written_slot (H : Header) (type : Int) (k mod button : Nat) (taction : Action) : action_t :=
  if taction.action = H.ACTION_NONE then
    ⟨-1, -1, 0, type, taction.action, taction.iarg, taction.sarg⟩
  else
    ⟨k, mod, button, type, taction.action, taction.iarg, taction.sarg⟩

/-- The table half of `bind_key`, after both parsers have succeeded: the
overwrite search, the slot written, and the grab or ungrab request. The
local `iaction` keeps the value -1 it is initialised with. -/
def bind_key_store (H : Header) (X : Xlib) (s : State) (type : Int) (k mod button : Nat)
    (taction : Action) : Nat × State :=
  let iaction : Int := -1
  let found := find_binding (same_trigger type k mod button) s.key_actions
  let overwrite : Bool := found.isSome
  let aidx : Nat := found.getD s.key_actions.length
  let slot : action_t := written_slot H type k mod button taction
  let table : List action_t :=
    if overwrite then s.key_actions.set aidx slot else s.key_actions ++ [slot]
  let sent : List XCall :=
    if type = H.BINDING_TYPE_KEYBOARD then
      if overwrite ∧ iaction = H.ACTION_NONE then
        [XCall.XUngrabKey (X.XKeysymToKeycode k) mod]
      else if ¬ overwrite then
        [XCall.XGrabKey (X.XKeysymToKeycode k) mod]
      else []
    else []
  (aidx, ⟨table, s.calls ++ sent⟩)

/-- The function `bind_key` of keyboard.c: the index of the returned slot (or
the failure, for a NULL result) and the globals after the call. -/
def bind_key (H : Header) (X : Xlib) (s : State) (type : Int) (key action : CString) :
    Except ParseError Nat × State :=
  match bind_key_descriptor X key with
  | .error e => (.error e, s)
  | .ok (k, mod, button) =>
    match parse_action H key action with
    | .error e => (.error e, s)
    | .ok taction =>
      let r := bind_key_store H X s type k mod button taction
      (.ok r.1, r.2)

/-- The binding search of `handle_key_event`: the index of the first slot of
the keyboard class whose key is the event's key symbol `kc` and whose
modifier mask is the event's `state`. -/
def handle_key_event_lookup (H : Header) (key_actions : List action_t) (kc state : Nat) :
    Option Nat :=
  find_binding (fun a => a.type == H.BINDING_TYPE_KEYBOARD && a.key == (kc : Int) &&
    a.mod == (state : Int)) key_actions

/-! ## A concrete platform -/

/-- A fragment of the keysym table of X11 (keysymdef.h): letters and digits
name the key symbol with their own character code, and a few named keys. -/
def sample_keysym (name : CString) : Nat :=
  match name with
  | [c] => if c.isAlphanum then c.toNat else 0
  | _ =>
    if name = "Tab".toList then 65289
    else if name = "F1".toList then 65470
    else if name = "space".toList then 32
    else if name = "Return".toList then 65293
    else 0

/-- A platform for the examples: the keysym fragment above and a keyboard
whose key code is the low byte of the key symbol. -/
def sample_xlib : Xlib := ⟨sample_keysym, fun k => k % 256⟩

/-- The globals at start-up: an empty table, nothing sent. -/
def State.init : State := ⟨[], []⟩

/-! ## Sequences of calls and the uniqueness of triggers -/

/-- A sequence of `bind_key` calls, each given as (trigger class,
descriptor, action text), run from a state; failed calls are included. -/
def bind_keys (H : Header) (X : Xlib) (s : State) : List (Int × CString × CString) → State
  | [] => s
  | (type, key, action) :: rest => bind_keys H X (bind_key H X s type key action).2 rest

/-- Two slots have the same (trigger class, key symbol, modifier mask,
button). -/
def same_quadruple (a b : action_t) : Prop :=
  a.type = b.type ∧ a.key = b.key ∧ a.mod = b.mod ∧ a.button = b.button

/-- No two entries of the table have the same (trigger class, key symbol,
modifier mask, button). -/
def unique_triggers (l : List action_t) : Prop :=
  ∀ (i j : Nat) (a b : action_t), i ≠ j → l[i]? = some a → l[j]? = some b →
    ¬ same_quadruple a b

/-- No two entries of the table other than unbound markers (key -1) have
the same (trigger class, key symbol, modifier mask, button). -/
def unique_bound_triggers (l : List action_t) : Prop :=
  ∀ (i j : Nat) (a b : action_t), i ≠ j → l[i]? = some a → l[j]? = some b →
    a.key ≠ -1 → b.key ≠ -1 →
    ¬ same_quadruple a b

/-! ## Descriptors built from the alias table -/

/-- The alias table of the modifier names, each alias with the bit of its
group: shift; control/ctrl/ctl; alt/meta/mod1; mod2; mod3; super/win/mod4. -/
def modifier_aliases : List (CString × Nat) :=
  [("shift".toList, ShiftMask),
   ("control".toList, ControlMask), ("ctrl".toList, ControlMask), ("ctl".toList, ControlMask),
   ("alt".toList, Mod1Mask), ("meta".toList, Mod1Mask), ("mod1".toList, Mod1Mask),
   ("mod2".toList, Mod2Mask),
   ("mod3".toList, Mod3Mask),
   ("super".toList, Mod4Mask), ("win".toList, Mod4Mask), ("mod4".toList, Mod4Mask)]

/-- The text `s` is an upper/lower-case spelling of `a`: position by
position, the character of `a` or its upper-case form. -/
def spells : CString → CString → Bool
  | [], [] => true
  | x :: s, y :: a => (x == y || x == toupper y) && spells s a
  | _, _ => false

/-- The segment is some upper/lower-case spelling of an alias of the group
with this bit. -/
def names_group (segment : CString) (bit : Nat) : Bool :=
  modifier_aliases.any (fun p => p.2 == bit && spells segment p.1)

/-- The descriptor made of the given modifier segments, each followed by
`+`, and a final segment. -/
def descriptor (segments : List CString) (last : CString) : CString :=
  match segments with
  | [] => last
  | segment :: rest => segment ++ '+' :: descriptor rest last

/-- Bitwise OR of a list of modifier bits. -/
def or_bits (bits : List Nat) : Nat := bits.foldl (fun m b => m ||| b) 0

/-- The libc predicate `isalpha` in the C locale: an ASCII letter. -/
def isalpha (c : Char) : Bool :=
  (decide ('a' ≤ c) && decide (c ≤ 'z')) || (decide ('A' ≤ c) && decide (c ≤ 'Z'))

/-- The final segment is `mouse`, in any letter case, followed by a single
digit 1..9 and nothing else. -/
def is_mouse_digit (last : CString) : Bool :=
  match last with
  | [a, b, c, d, e, f] =>
    spells [a, b, c, d, e] "mouse".toList && decide ('1' ≤ f) && decide (f ≤ '9')
  | _ => false

/-- The final segment begins with `mouse`, in any letter case, followed by a
digit 1..9. -/
def begins_mouse_digit (last : CString) : Bool :=
  match last with
  | a :: b :: c :: d :: e :: f :: _ =>
    spells [a, b, c, d, e] "mouse".toList && decide ('1' ≤ f) && decide (f ≤ '9')
  | _ => false

/-- The name `bind_key` passes to `XStringToKeysym` for a final segment that
is a key name: a single character is lower-cased first. -/
def key_name (last : CString) : CString :=
  if last.length = 1 then last.map tolower else last

/-! ## Numerals -/

/-- The base-10 numeral of a natural number: its decimal digits, most
significant first. -/
def decimal (n : Nat) : CString :=
  if n = 0 then ['0'] else (Nat.digits 10 n).reverse.map Nat.digitChar

/-- The base-10 numeral of an integer: a minus sign before the digits of a
negative number. -/
def numeral (n : Int) : CString :=
  if n < 0 then '-' :: decimal n.natAbs else decimal n.natAbs

/-! ## Command words -/

/-- The twelve command words `parse_action` compares the text with. -/
def command_words : List CString :=
  ["cycle".toList, "reverse_cycle".toList, "desk".toList, "close".toList, "exec".toList,
   "launcher".toList, "restart".toList, "quit".toList, "drag".toList, "fullscreen".toList,
   "iconify".toList, "move".toList]

/-- The command word of an action text: the text before its first space, the
whole text when it has none. -/
def command_word (text : CString) : CString :=
  match strchr text ' ' with
  | some (word, _) => word
  | none => text

/-- The text consists of newlines only. -/
def newline_only (text : CString) : Bool :=
  text.all (fun c => c == '\n')

/-- The eighteen action kinds of a header, in the order the spec lists
them. -/
def Header.kinds (H : Header) : List Int :=
  [H.ACTION_NONE, H.ACTION_INVALID, H.ACTION_CYCLE, H.ACTION_REVERSE_CYCLE, H.ACTION_DESK,
   H.ACTION_DESK_NEXT, H.ACTION_DESK_PREVIOUS, H.ACTION_MOVE, H.ACTION_MOVE_NEXT,
   H.ACTION_MOVE_PREVIOUS, H.ACTION_CLOSE, H.ACTION_EXEC, H.ACTION_LAUNCHER,
   H.ACTION_RESTART, H.ACTION_QUIT, H.ACTION_DRAG, H.ACTION_FULL_SCREEN, H.ACTION_ICONIFY]

/-- The header declares an enumeration: the eighteen kinds have pairwise
distinct values (they are case labels of the `switch` statements), and the
NEXT and PREVIOUS variants of DESK and MOVE are the base kind + 1 and + 2,
which `parse_action` relies on. -/
def Header.enumerated (H : Header) : Prop :=
  H.kinds.Nodup ∧
  H.ACTION_DESK_NEXT = H.ACTION_DESK + 1 ∧ H.ACTION_DESK_PREVIOUS = H.ACTION_DESK + 2 ∧
  H.ACTION_MOVE_NEXT = H.ACTION_MOVE + 1 ∧ H.ACTION_MOVE_PREVIOUS = H.ACTION_MOVE + 2

instance (H : Header) : Decidable H.enumerated := by
  unfold Header.enumerated; infer_instance

/-- The command words that take no argument, each with its kind. -/
def no_argument_words (H : Header) : List (CString × Int) :=
  [("cycle".toList, H.ACTION_CYCLE), ("reverse_cycle".toList, H.ACTION_REVERSE_CYCLE),
   ("close".toList, H.ACTION_CLOSE), ("launcher".toList, H.ACTION_LAUNCHER),
   ("restart".toList, H.ACTION_RESTART), ("quit".toList, H.ACTION_QUIT),
   ("drag".toList, H.ACTION_DRAG), ("fullscreen".toList, H.ACTION_FULL_SCREEN),
   ("iconify".toList, H.ACTION_ICONIFY)]

/-- The remainder of an action text: the text after its first space, `none`
(a NULL `targ`) when it has none. -/
def command_rest (text : CString) : Option CString :=
  match strchr text ' ' with
  | some (_, rest) => some rest
  | none => none

/-- The `strcmp` chain of `parse_action`: the kind of a command word. -/
def command_kind (H : Header) (taction : CString) : Int :=
  if taction = "cycle".toList then H.ACTION_CYCLE
  else if taction = "reverse_cycle".toList then H.ACTION_REVERSE_CYCLE
  else if taction = "desk".toList then H.ACTION_DESK
  else if taction = "close".toList then H.ACTION_CLOSE
  else if taction = "exec".toList then H.ACTION_EXEC
  else if taction = "launcher".toList then H.ACTION_LAUNCHER
  else if taction = "restart".toList then H.ACTION_RESTART
  else if taction = "quit".toList then H.ACTION_QUIT
  else if taction = "drag".toList then H.ACTION_DRAG
  else if taction = "fullscreen".toList then H.ACTION_FULL_SCREEN
  else if taction = "iconify".toList then H.ACTION_ICONIFY
  else if taction = "move".toList then H.ACTION_MOVE
  else if taction.head? = some '\n' ∨ taction = [] then H.ACTION_NONE
  else H.ACTION_INVALID

/-- The `switch (iaction)` of `parse_action`: the argument rules of a kind
applied to the remainder. -/
def parse_action_switch (H : Header) (iaction : Int) (targ : Option CString) :
    Except ParseError Action :=
  if iaction = H.ACTION_DESK ∨ iaction = H.ACTION_MOVE then
    match targ with
    | none => .error .MissingArgument
    | some targ =>
      if targ = "next".toList then .ok ⟨iaction + 1, 0, none⟩
      else if targ = "previous".toList then .ok ⟨iaction + 2, 0, none⟩
      else if targ = "all".toList then .ok ⟨iaction, H.DESK_ALL, none⟩
      else
        let r := strtol targ
        if r.2 then .error .BadArgument
        else .ok ⟨iaction, long_to_int r.1, none⟩
  else if iaction = H.ACTION_EXEC then
    match targ with
    | none => .error .MissingArgument
    | some targ => .ok ⟨iaction, 0, some targ⟩
  else if iaction = H.ACTION_INVALID then .error .InvalidAction
  else
    match targ with
    | some _ => .error .UnexpectedArgument
    | none => .ok ⟨iaction, 0, none⟩

/-! ## The input router and the dispatcher -/

/-- Modelled from the spec: the client record `client_t` of `progman.h`, as
far as this code touches it: an identity standing for the pointer, the
`state` flags and the `desk`. -/
structure client_t where
  id : Nat
  state : Nat
  desk : Int
deriving DecidableEq, Repr

/-- Modelled from the spec: what the router and the dispatcher take from the
client list, which is not among the sources: the flag STATE_ICONIFIED of
`progman.h` and the collaborator `next_client_for_focus` (`none` for a NULL
result). -/
structure Clients where
  STATE_ICONIFIED : Nat
  next_client_for_focus : client_t → Option client_t

/-- The event type `KeyPress` of X11/X.h. -/
def KeyPress : Int := 2

/-- The event type `KeyRelease` of X11/X.h. -/
def KeyRelease : Int := 3

/-- The fields of an `XKeyEvent` that `handle_key_event` reads, with
`keysym` the result of `XLookupKeysym(e, 0)`. -/
structure XKeyEvent where
  type : Int
  keysym : Nat
  state : Nat
  time : Nat
deriving DecidableEq, Repr

/-- A request to the X server or a call of a collaborator made by
`handle_key_event` or `take_action`. The flags FOCUS_FORCE and ORDER_INVERT
are the only ones the source passes. -/
inductive Call where
  | XGrabKeyboard (time : Nat)
  | XUngrabKeyboard
  | XAllowEvents_ReplayKeyboard (time : Nat)
  | XFlush
  | uniconify_client (c : client_t)
  | iconify_client (c : client_t)
  | fullscreen_client (c : client_t)
  | unfullscreen_client (c : client_t)
  | focus_client (c : client_t)
  | adjust_client_order_invert
  | redraw_frame (c : client_t)
  | goto_desk (desk : Int)
  | send_wm_delete (c : client_t)
  | fork_exec (cmd : Option CString)
  | launcher_show
  | cleanup
  | execlp
  | quit
  | warnx_unhandled (action : Int)
deriving DecidableEq, Repr

/-- The globals `handle_key_event` and `take_action` read and write: the
binding table, the static `cycle_key`, the cycle anchor `cycle_head`, the
`focused` client, `cur_desk`, `ndesks`, the static `is_fullscreen`, and the
calls made so far, oldest first. -/
structure Router where
  key_actions : List action_t
  cycle_key : Int
  cycle_head : Option client_t
  focused : Option client_t
  cur_desk : Int
  ndesks : Int
  is_fullscreen : Bool
  trace : List Call
deriving DecidableEq, Repr

/-- The assignment `focused->desk = desk`: the record behind the pointer
changes, so the anchor changes with it when it is the same client. -/
def Router.set_focused_desk (r : Router) (f : client_t) (desk : Int) : Router :=
  { r with
    focused := some { f with desk := desk },
    cycle_head :=
      match r.cycle_head with
      | some h => if h.id = f.id then some { h with desk := desk } else some h
      | none => none }

/-- The function `take_action` of util.c, on the record its argument points
to: the globals after the call and the record, whose `iarg` the MOVE_NEXT and
MOVE_PREVIOUS cases overwrite. -/
def take_action (H : Header) (C : Clients) (r : Router) (action : action_t) :
    Router × action_t :=
  if action.action = H.ACTION_CYCLE ∨ action.action = H.ACTION_REVERSE_CYCLE then
    let anchor : Option client_t :=
      match r.cycle_head with
      | some h => some h
      | none => r.focused
    match anchor with
    | none => (r, action)
    | some head =>
      match C.next_client_for_focus head with
      | some next =>
        ({ r with cycle_head := some head, trace := r.trace ++ [Call.focus_client next] },
          action)
      | none =>
        let redraw : List Call :=
          match r.focused with
          | some p => [Call.redraw_frame p]
          | none => []
        ({ r with
            cycle_head := some head,
            trace := r.trace ++ [Call.adjust_client_order_invert] ++ redraw ++
              [Call.focus_client head] },
          action)
  else if action.action = H.ACTION_DESK then
    ({ r with trace := r.trace ++ [Call.goto_desk action.iarg] }, action)
  else if action.action = H.ACTION_DESK_NEXT then
    if r.cur_desk < r.ndesks - 1 then
      ({ r with trace := r.trace ++ [Call.goto_desk (r.cur_desk + 1)] }, action)
    else (r, action)
  else if action.action = H.ACTION_DESK_PREVIOUS then
    if r.cur_desk > 0 then
      ({ r with trace := r.trace ++ [Call.goto_desk (r.cur_desk - 1)] }, action)
    else (r, action)
  else if action.action = H.ACTION_MOVE_NEXT ∨ action.action = H.ACTION_MOVE_PREVIOUS ∨
      action.action = H.ACTION_MOVE then
    let moved : action_t :=
      if action.action = H.ACTION_MOVE_NEXT ∨ action.action = H.ACTION_MOVE_PREVIOUS then
        { action with
          iarg := r.cur_desk + (if action.action = H.ACTION_MOVE_NEXT then 1 else -1) }
      else action
    match r.focused with
    | some f =>
      let r1 := r.set_focused_desk f moved.iarg
      ({ r1 with trace := r1.trace ++ [Call.goto_desk r1.cur_desk] }, moved)
    | none => (r, moved)
  else if action.action = H.ACTION_CLOSE then
    match r.focused with
    | some f => ({ r with trace := r.trace ++ [Call.send_wm_delete f] }, action)
    | none => (r, action)
  else if action.action = H.ACTION_EXEC then
    ({ r with trace := r.trace ++ [Call.fork_exec action.sarg] }, action)
  else if action.action = H.ACTION_LAUNCHER then
    ({ r with trace := r.trace ++ [Call.launcher_show] }, action)
  else if action.action = H.ACTION_RESTART then
    ({ r with trace := r.trace ++ [Call.cleanup, Call.execlp] }, action)
  else if action.action = H.ACTION_QUIT then
    ({ r with trace := r.trace ++ [Call.quit] }, action)
  else
    ({ r with trace := r.trace ++ [Call.warnx_unhandled action.action] }, action)

/-- The call `take_action(&key_actions[i])` of `handle_key_event`: the
dispatch on slot `i`, with the record written back to the slot. -/
def take_action_slot (H : Header) (C : Clients) (r : Router) (i : Nat) : Router :=
  match r.key_actions[i]? with
  | none => r
  | some a =>
    let result := take_action H C r a
    { result.1 with key_actions := result.1.key_actions.set i result.2 }

/-- The function `handle_key_event` of keyboard.c. -/
def handle_key_event (H : Header) (C : Clients) (r : Router) (e : XKeyEvent) : Router :=
  let kc := e.keysym
  if r.cycle_key ≠ 0 ∧ (kc : Int) ≠ r.cycle_key ∧ e.type = KeyRelease then
    let r1 : Router :=
      { r with
        cycle_key := 0,
        trace := r.trace ++
          [Call.XUngrabKeyboard, Call.XAllowEvents_ReplayKeyboard e.time, Call.XFlush] }
    match r1.cycle_head with
    | none => r1
    | some _ =>
      let r2 : Router := { r1 with cycle_head := none }
      match r2.focused with
      | none => r2
      | some f =>
        if f.state &&& C.STATE_ICONIFIED ≠ 0 then
          { r2 with trace := r2.trace ++ [Call.uniconify_client f] }
        else r2
  else
    match handle_key_event_lookup H r.key_actions kc e.state with
    | none => r
    | some i =>
      if e.type ≠ KeyPress then r
      else
        match r.key_actions[i]? with
        | none => r
        | some a =>
          if a.action = H.ACTION_CYCLE ∨ a.action = H.ACTION_REVERSE_CYCLE then
            take_action_slot H C
              { r with trace := r.trace ++ [Call.XGrabKeyboard e.time], cycle_key := a.key } i
          else if a.action = H.ACTION_ICONIFY then
            match r.focused with
            | some f => { r with trace := r.trace ++ [Call.iconify_client f] }
            | none => r
          else if a.action = H.ACTION_FULL_SCREEN then
            match r.focused with
            | some f =>
              if !r.is_fullscreen then
                { r with is_fullscreen := true, trace := r.trace ++ [Call.fullscreen_client f] }
              else
                { r with
                  is_fullscreen := false,
                  trace := r.trace ++ [Call.unfullscreen_client f] }
            | none => r
          else take_action_slot H C r i

/-- The exclusive keyboard grab is held after these calls: the last of the
`XGrabKeyboard` and `XUngrabKeyboard` calls is a grab. -/
def keyboard_grabbed (trace : List Call) : Bool :=
  trace.foldl (fun held c =>
    match c with
    | Call.XGrabKeyboard _ => true
    | Call.XUngrabKeyboard => false
    | _ => held) false

/-- The idle router over a binding table: `cycle_key` 0, no anchor, nothing
called yet. -/
def Router.idle (key_actions : List action_t) (focused : Option client_t)
    (cur_desk ndesks : Int) : Router :=
  ⟨key_actions, 0, none, focused, cur_desk, ndesks, false, []⟩

/-- A sequence of key events handled one after the other. -/
def handle_key_events (H : Header) (C : Clients) (r : Router) : List XKeyEvent → Router
  | [] => r
  | e :: rest => handle_key_events H C (handle_key_event H C r e) rest

/-- A client list for the examples: the flag STATE_ICONIFIED is bit 2, and
focus goes from client 1 to client 2 and no further. -/
def sample_clients : Clients :=
  ⟨4, fun c => if c.id = 1 then some ⟨2, 0, 0⟩ else none⟩

/-- The calls the spec gives for a cycle dispatch from an anchor: focus the
next client for focus, or, when there is none, invert the client order,
redraw the frame of the focused client and focus the anchor. -/
def cycle_calls (C : Clients) (anchor : client_t) (focused : Option client_t) : List Call :=
  match C.next_client_for_focus anchor with
  | some next => [Call.focus_client next]
  | none =>
    [Call.adjust_client_order_invert] ++
      (match focused with
        | some p => [Call.redraw_frame p]
        | none => []) ++
      [Call.focus_client anchor]

/-! ## The overwrite search -/

theorem find_binding_eq_none {test : action_t → Bool} {l : List action_t} :
    find_binding test l = none ↔ ∀ a ∈ l, test a = false := by
  induction l with
  | nil => simp [find_binding]
  | cons a rest ih =>
    unfold find_binding
    cases h : test a with
    | true => simp [h]
    | false =>
      cases hr : find_binding test rest with
      | none => simpa [h] using ih.mp hr
      | some x =>
        have : ¬ ∀ b ∈ rest, test b = false := fun hc => by
          rw [ih.mpr hc] at hr; cases hr
        simpa [h] using this

theorem find_binding_eq_some {test : action_t → Bool} {l : List action_t} {x : Nat}
    (h : find_binding test l = some x) :
    ∃ a, l[x]? = some a ∧ test a = true ∧ ∀ y < x, ∀ b, l[y]? = some b → test b = false := by
  induction l generalizing x with
  | nil => simp [find_binding] at h
  | cons a rest ih =>
    unfold find_binding at h
    cases ha : test a with
    | true =>
      simp only [ha, if_true, Option.some.injEq] at h
      subst h
      exact ⟨a, by simp, ha, by intro y hy; omega⟩
    | false =>
      cases hr : find_binding test rest with
      | none => simp [ha, hr] at h
      | some z =>
        simp only [ha, hr, Bool.false_eq_true, if_false, Option.some.injEq] at h
        subst h
        obtain ⟨b, hb, htb, hlt⟩ := ih hr
        refine ⟨b, by simpa using hb, htb, ?_⟩
        intro y hy c hc
        cases y with
        | zero =>
          simp only [List.getElem?_cons_zero, Option.some.injEq] at hc
          subst hc
          exact ha
        | succ y =>
          simp only [List.getElem?_cons_succ] at hc
          exact hlt y (by omega) c hc

theorem find_binding_append_new {test : action_t → Bool} {l : List action_t} {a : action_t}
    (hl : ∀ b ∈ l, test b = false) (ha : test a = true) :
    find_binding test (l ++ [a]) = some l.length := by
  induction l with
  | nil => simp [find_binding, ha]
  | cons b rest ih =>
    have hb : test b = false := hl b (by simp)
    have hrest : ∀ c ∈ rest, test c = false := fun c hc => hl c (by simp [hc])
    simp [find_binding, hb, ih hrest]

/-! ## What one successful `bind_key` stores -/

theorem bind_key_store_fresh (H : Header) (X : Xlib) (s : State) (type : Int)
    (k mod button : Nat) (taction : Action)
    (hfresh : ∀ a ∈ s.key_actions, same_trigger type k mod button a = false) :
    bind_key_store H X s type k mod button taction =
      (s.key_actions.length,
        ⟨s.key_actions ++ [written_slot H type k mod button taction],
          s.calls ++ (if type = H.BINDING_TYPE_KEYBOARD then
            [XCall.XGrabKey (X.XKeysymToKeycode k) mod] else [])⟩) := by
  have hnone := find_binding_eq_none.mpr hfresh
  simp only [bind_key_store, hnone, written_slot]
  by_cases ht : type = H.BINDING_TYPE_KEYBOARD <;> simp [ht]

theorem bind_key_store_found (H : Header) (X : Xlib) (s : State) (type : Int)
    (k mod button : Nat) (taction : Action) (x : Nat)
    (hfound : find_binding (same_trigger type k mod button) s.key_actions = some x) :
    bind_key_store H X s type k mod button taction =
      (x, ⟨s.key_actions.set x (written_slot H type k mod button taction),
          s.calls ++ (if type = H.BINDING_TYPE_KEYBOARD ∧ (-1 : Int) = H.ACTION_NONE then
            [XCall.XUngrabKey (X.XKeysymToKeycode k) mod] else [])⟩) := by
  simp only [bind_key_store, hfound, written_slot]
  by_cases ht : type = H.BINDING_TYPE_KEYBOARD <;>
    by_cases hn : (-1 : Int) = H.ACTION_NONE <;> simp [ht, hn]

theorem same_trigger_written_real (H : Header) (type : Int) (k mod button : Nat)
    (taction : Action) (hreal : taction.action ≠ H.ACTION_NONE) :
    same_trigger type k mod button (written_slot H type k mod button taction) = true := by
  simp [same_trigger, written_slot, hreal]

theorem bind_key_ok (H : Header) (X : Xlib) (s : State) (type : Int) (key action : CString)
    (k mod button : Nat) (taction : Action)
    (hd : bind_key_descriptor X key = .ok (k, mod, button))
    (ha : parse_action H key action = .ok taction) :
    bind_key H X s type key action =
      (.ok (bind_key_store H X s type k mod button taction).1,
        (bind_key_store H X s type k mod button taction).2) := by
  simp [bind_key, hd, ha]

/-! ## C1 -/

/-- C1, as stated, at a concrete input: on the empty table, binding `a` first
to the empty action text (which parses, to kind NONE) and then to `cycle`
leaves two entries, not one. -/
theorem bind_key_twice_counterexample :
    bind_key_descriptor sample_xlib "a".toList = .ok (97, 0, 0) ∧
    parse_action progman_h "a".toList "".toList = .ok ⟨0, 0, none⟩ ∧
    parse_action progman_h "a".toList "cycle".toList = .ok ⟨2, 0, none⟩ ∧
    (∀ a ∈ State.init.key_actions, same_trigger 0 97 0 0 a = false) ∧
    (bind_key progman_h sample_xlib
      (bind_key progman_h sample_xlib State.init 0 "a".toList "".toList).2
      0 "a".toList "cycle".toList).2.key_actions =
        [⟨-1, -1, 0, 0, 0, 0, none⟩, ⟨97, 0, 0, 0, 2, 0, none⟩] ∧
    ¬ ((bind_key progman_h sample_xlib
      (bind_key progman_h sample_xlib State.init 0 "a".toList "".toList).2
      0 "a".toList "cycle".toList).2.key_actions.length =
        State.init.key_actions.length + 1) := by
  refine ⟨by decide, by decide, by decide, by decide, by decide, by decide⟩

/-- C1, amended: for every trigger class, every descriptor that parses and
every two action texts that both parse, the first to a real (non-NONE)
action, binding the descriptor to the first and then to the second on a
table with no entry for its (trigger class, key, modifier, button) leaves the
old entries in place followed by exactly one new entry, which carries the
second action's kind, integer argument and string argument; both calls
return that entry's slot. -/
theorem bind_key_twice (H : Header) (X : Xlib) (s : State) (type : Int)
    (d a1 a2 : CString) (k mod button : Nat) (t1 t2 : Action)
    (hd : bind_key_descriptor X d = .ok (k, mod, button))
    (h1 : parse_action H d a1 = .ok t1)
    (h2 : parse_action H d a2 = .ok t2)
    (hreal : t1.action ≠ H.ACTION_NONE)
    (hfresh : ∀ a ∈ s.key_actions, same_trigger type k mod button a = false) :
    (bind_key H X s type d a1).1 = .ok s.key_actions.length ∧
    (bind_key H X (bind_key H X s type d a1).2 type d a2).1 = .ok s.key_actions.length ∧
    ∃ e : action_t,
      (bind_key H X (bind_key H X s type d a1).2 type d a2).2.key_actions =
        s.key_actions ++ [e] ∧
      e.type = type ∧ e.action = t2.action ∧ e.iarg = t2.iarg ∧ e.sarg = t2.sarg := by
  have hfirst := bind_key_store_fresh H X s type k mod button t1 hfresh
  have hfound : find_binding (same_trigger type k mod button)
      (s.key_actions ++ [written_slot H type k mod button t1]) = some s.key_actions.length :=
    find_binding_append_new hfresh (same_trigger_written_real H type k mod button t1 hreal)
  rw [bind_key_ok H X s type d a1 k mod button t1 hd h1, hfirst]
  refine ⟨rfl, ?_, ?_⟩
  · rw [bind_key_ok H X _ type d a2 k mod button t2 hd h2,
      bind_key_store_found H X _ type k mod button t2 _ hfound]
  · refine ⟨written_slot H type k mod button t2, ?_, ?_⟩
    · rw [bind_key_ok H X _ type d a2 k mod button t2 hd h2,
        bind_key_store_found H X _ type k mod button t2 _ hfound]
      simp
    · unfold written_slot
      split <;> simp

/-- C1, amended, at a concrete input: `Win+T` bound to `exec xterm` and then
to `desk 3`. -/
theorem bind_key_twice_witness :
    (bind_key progman_h sample_xlib State.init 0 "Win+T".toList "exec xterm".toList).1 =
      .ok State.init.key_actions.length ∧
    (bind_key progman_h sample_xlib
      (bind_key progman_h sample_xlib State.init 0 "Win+T".toList "exec xterm".toList).2
      0 "Win+T".toList "desk 3".toList).1 = .ok State.init.key_actions.length ∧
    ∃ e : action_t,
      (bind_key progman_h sample_xlib
        (bind_key progman_h sample_xlib State.init 0 "Win+T".toList "exec xterm".toList).2
        0 "Win+T".toList "desk 3".toList).2.key_actions = State.init.key_actions ++ [e] ∧
      e.type = 0 ∧ e.action = (⟨4, 3, none⟩ : Action).action ∧
      e.iarg = (⟨4, 3, none⟩ : Action).iarg ∧ e.sarg = (⟨4, 3, none⟩ : Action).sarg :=
  bind_key_twice progman_h sample_xlib State.init 0 "Win+T".toList "exec xterm".toList
    "desk 3".toList 116 64 0 ⟨11, 0, some "xterm".toList⟩ ⟨4, 3, none⟩
    (by decide) (by decide) (by decide) (by decide) (by decide)

/-! ## C2 -/

/-- Whatever the header, as long as its ACTION_NONE is not -1 (the value the
local `iaction` of `bind_key` keeps), no call of `bind_key` sends an ungrab:
all it ever adds to the requests is at most one grab. -/
theorem bind_key_store_calls (H : Header) (X : Xlib) (s : State) (type : Int)
    (k mod button : Nat) (taction : Action) (hnone : H.ACTION_NONE ≠ -1) :
    (bind_key_store H X s type k mod button taction).2.calls = s.calls ∨
    (bind_key_store H X s type k mod button taction).2.calls =
      s.calls ++ [XCall.XGrabKey (X.XKeysymToKeycode k) mod] := by
  have hne : ¬ ((-1 : Int) = H.ACTION_NONE) := fun h => hnone h.symm
  cases hf : find_binding (same_trigger type k mod button) s.key_actions with
  | none =>
    rw [bind_key_store_fresh H X s type k mod button taction (find_binding_eq_none.mp hf)]
    by_cases ht : type = H.BINDING_TYPE_KEYBOARD <;> simp [ht]
  | some x =>
    rw [bind_key_store_found H X s type k mod button taction x hf]
    simp [hne]

/-- C2, at the failing input: with `a` bound to `cycle` in the keyboard
class, `bind_key(BINDING_TYPE_KEYBOARD, "a", "")` finds the entry,
overwrites it with the unbound marker and sends nothing to the X server: no
ungrab of key code 97 with modifier mask 0 follows the grab of the first
call. -/
theorem bind_key_unbind_existing_sends_nothing :
    (bind_key progman_h sample_xlib State.init progman_h.BINDING_TYPE_KEYBOARD
      "a".toList "cycle".toList).2 =
      ⟨[⟨97, 0, 0, 0, 2, 0, none⟩], [XCall.XGrabKey 97 0]⟩ ∧
    bind_key progman_h sample_xlib
      ⟨[⟨97, 0, 0, 0, 2, 0, none⟩], [XCall.XGrabKey 97 0]⟩
      progman_h.BINDING_TYPE_KEYBOARD "a".toList "".toList =
      (.ok 0, ⟨[⟨-1, -1, 0, 0, 0, 0, none⟩], [XCall.XGrabKey 97 0]⟩) := by
  refine ⟨by decide, by decide⟩

/-! ## C3 -/

/-- C3, at the failing input: on the empty table,
`bind_key(BINDING_TYPE_KEYBOARD, "a", "")` is not a no-op: it appends a slot
holding the unbound marker and grabs key code 97 with modifier mask 0. -/
theorem bind_key_unbind_missing_grabs :
    bind_key_descriptor sample_xlib "a".toList = .ok (97, 0, 0) ∧
    (∀ a ∈ State.init.key_actions, same_trigger progman_h.BINDING_TYPE_KEYBOARD 97 0 0 a = false) ∧
    bind_key progman_h sample_xlib State.init progman_h.BINDING_TYPE_KEYBOARD
      "a".toList "".toList =
      (.ok 0, ⟨[⟨-1, -1, 0, 0, 0, 0, none⟩], [XCall.XGrabKey 97 0]⟩) := by
  refine ⟨by decide, by decide, by decide⟩

/-! ## C4 -/

theorem modifier_loop_error (fuel : Nat) (tkey : CString) (mod : Nat) (e : ParseError)
    (h : modifier_loop fuel tkey mod = .error e) : e = .UnknownModifier := by
  induction fuel generalizing tkey mod with
  | zero => simp [modifier_loop] at h
  | succ fuel ih =>
    unfold modifier_loop at h
    split at h
    · cases h
    · split at h
      · exact ih _ _ h
      · cases h; rfl

theorem strchr_length {s : CString} {c : Char} {before after : CString}
    (h : strchr s c = some (before, after)) :
    s.length = before.length + 1 + after.length := by
  induction s generalizing before with
  | nil => simp [strchr] at h
  | cons x xs ih =>
    unfold strchr at h
    by_cases hx : x = c
    · simp only [hx, if_true, Option.some.injEq, Prod.mk.injEq] at h
      obtain ⟨h1, h2⟩ := h
      subst h1 h2
      simp only [List.length_cons, List.length_nil]
      omega
    · simp only [hx, if_false] at h
      cases hr : strchr xs c with
      | none => simp [hr] at h
      | some p =>
        obtain ⟨b, a⟩ := p
        simp only [hr, Option.some.injEq, Prod.mk.injEq] at h
        obtain ⟨h1, h2⟩ := h
        subst h1 h2
        have := ih hr
        simp only [List.length_cons]
        omega

/-- The counter of `modifier_loop` never runs out: any two counters that are
at least the length of the text give the same result. -/
theorem modifier_loop_fuel (fuel fuel' : Nat) (tkey : CString) (mod : Nat)
    (h : tkey.length ≤ fuel) (h' : tkey.length ≤ fuel') :
    modifier_loop fuel tkey mod = modifier_loop fuel' tkey mod := by
  induction fuel generalizing fuel' tkey mod with
  | zero =>
    have ht : tkey = [] := List.length_eq_zero.mp (by omega)
    subst ht
    cases fuel' with
    | zero => rfl
    | succ f => simp [modifier_loop, strchr]
  | succ f ih =>
    cases fuel' with
    | zero =>
      have ht : tkey = [] := List.length_eq_zero.mp (by omega)
      subst ht
      simp [modifier_loop, strchr]
    | succ f' =>
      unfold modifier_loop
      cases hs : strchr tkey '+' with
      | none => rfl
      | some p =>
        obtain ⟨segment, rest⟩ := p
        have hlen := strchr_length hs
        simp only
        cases modifier_bit segment with
        | none => rfl
        | some bit => exact ih f' rest _ (by omega) (by omega)

/-- When the modifier loop of `bind_key` ends, no `+` is left in the text. -/
theorem modifier_loop_done (fuel : Nat) (tkey : CString) (mod m : Nat) (rest : CString)
    (h : tkey.length ≤ fuel) (hr : modifier_loop fuel tkey mod = .ok (m, rest)) :
    strchr rest '+' = none := by
  induction fuel generalizing tkey mod with
  | zero =>
    have ht : tkey = [] := List.length_eq_zero.mp (by omega)
    subst ht
    simp only [modifier_loop, Except.ok.injEq, Prod.mk.injEq] at hr
    rw [← hr.2]
    rfl
  | succ f ih =>
    unfold modifier_loop at hr
    cases hs : strchr tkey '+' with
    | none =>
      simp only [hs, Except.ok.injEq, Prod.mk.injEq] at hr
      rw [← hr.2]
      exact hs
    | some p =>
      obtain ⟨segment, rest'⟩ := p
      have hlen := strchr_length hs
      simp only [hs] at hr
      cases hb : modifier_bit segment with
      | none => simp [hb] at hr
      | some bit =>
        simp only [hb] at hr
        exact ih rest' _ (by omega) hr

theorem bind_key_trigger_error (X : Xlib) (tkey : CString) (e : ParseError)
    (h : bind_key_trigger X tkey = .error e) :
    e = .UnknownKey ∧
    X.XStringToKeysym (if tkey.length = 1 then tkey.map tolower else tkey) = 0 := by
  unfold bind_key_trigger at h
  simp only at h
  split_ifs at h <;> simp_all

theorem bind_key_descriptor_error (X : Xlib) (key : CString) (e : ParseError)
    (h : bind_key_descriptor X key = .error e) :
    (modifier_loop key.length key 0 = .error .UnknownModifier ∧ e = .UnknownModifier) ∨
    (∃ mod tkey, modifier_loop key.length key 0 = .ok (mod, tkey) ∧
      X.XStringToKeysym (if tkey.length = 1 then tkey.map tolower else tkey) = 0 ∧
      e = .UnknownKey) := by
  unfold bind_key_descriptor at h
  split at h
  · rename_i e1 h1
    cases h
    have := modifier_loop_error _ _ _ _ h1
    subst this
    exact Or.inl ⟨h1, rfl⟩
  · rename_i mod tkey h1
    split at h
    · rename_i e2 h2
      cases h
      have he := bind_key_trigger_error _ _ _ h2
      exact Or.inr ⟨mod, tkey, h1, he.2, he.1⟩
    · cases h

/-- C4: `bind_key` fails exactly when the descriptor fails (with
UnknownModifier for a segment outside the alias table, or UnknownKey for a
key name the keysym table maps to 0) or `parse_action` rejects the action
text; and whenever it fails, the globals after the call are the globals
before it: the same table, slot for slot, and no grab or ungrab sent. -/
theorem bind_key_failure (H : Header) (X : Xlib) (s : State) (type : Int)
    (key action : CString) :
    (∀ e, bind_key_descriptor X key = .error e →
      (e = .UnknownModifier ∨ e = .UnknownKey) ∧
      bind_key H X s type key action = (.error e, s)) ∧
    (∀ e t, bind_key_descriptor X key = .ok t → parse_action H key action = .error e →
      bind_key H X s type key action = (.error e, s)) ∧
    (∀ e, (bind_key H X s type key action).1 = .error e →
      (bind_key H X s type key action).2 = s ∧
      (bind_key H X s type key action).2.key_actions.length = s.key_actions.length ∧
      (bind_key_descriptor X key = .error e ∨ parse_action H key action = .error e)) := by
  refine ⟨?_, ?_, ?_⟩
  · intro e he
    refine ⟨?_, by simp [bind_key, he]⟩
    rcases bind_key_descriptor_error X key e he with ⟨_, h⟩ | ⟨_, _, _, _, h⟩
    · exact Or.inl h
    · exact Or.inr h
  · intro e t ht he
    obtain ⟨k, mod, button⟩ := t
    simp [bind_key, ht, he]
  · intro e he
    cases hd : bind_key_descriptor X key with
    | error e1 =>
      have hb : bind_key H X s type key action = (.error e1, s) := by simp [bind_key, hd]
      rw [hb] at he ⊢
      cases he
      exact ⟨rfl, rfl, Or.inl rfl⟩
    | ok t =>
      obtain ⟨k, mod, button⟩ := t
      cases ha : parse_action H key action with
      | error e2 =>
        have hb : bind_key H X s type key action = (.error e2, s) := by
          simp [bind_key, hd, ha]
        rw [hb] at he ⊢
        cases he
        exact ⟨rfl, rfl, Or.inr rfl⟩
      | ok taction =>
        rw [bind_key_ok H X s type key action k mod button taction hd ha] at he
        cases he

/-- C4 at concrete inputs: an unknown modifier, an unknown key name and a
rejected action text each leave a table with one binding as it was. -/
theorem bind_key_failure_witness :
    bind_key progman_h sample_xlib ⟨[⟨97, 0, 0, 0, 2, 0, none⟩], [XCall.XGrabKey 97 0]⟩ 0
      "hyper+a".toList "cycle".toList =
      (.error .UnknownModifier, ⟨[⟨97, 0, 0, 0, 2, 0, none⟩], [XCall.XGrabKey 97 0]⟩) ∧
    bind_key progman_h sample_xlib ⟨[⟨97, 0, 0, 0, 2, 0, none⟩], [XCall.XGrabKey 97 0]⟩ 0
      "alt+nosuchkey".toList "cycle".toList =
      (.error .UnknownKey, ⟨[⟨97, 0, 0, 0, 2, 0, none⟩], [XCall.XGrabKey 97 0]⟩) ∧
    bind_key progman_h sample_xlib ⟨[⟨97, 0, 0, 0, 2, 0, none⟩], [XCall.XGrabKey 97 0]⟩ 0
      "alt+a".toList "Cycle".toList =
      (.error .InvalidAction, ⟨[⟨97, 0, 0, 0, 2, 0, none⟩], [XCall.XGrabKey 97 0]⟩) :=
  ⟨((bind_key_failure progman_h sample_xlib _ 0 "hyper+a".toList "cycle".toList).1
      .UnknownModifier (by decide)).2,
    ((bind_key_failure progman_h sample_xlib _ 0 "alt+nosuchkey".toList "cycle".toList).1
      .UnknownKey (by decide)).2,
    (bind_key_failure progman_h sample_xlib _ 0 "alt+a".toList "Cycle".toList).2.1
      .InvalidAction (97, 8, 0) (by decide) (by decide)⟩

/-! ## C5 -/

theorem written_slot_bound (H : Header) (type : Int) (k mod button : Nat) (taction : Action)
    (h : (written_slot H type k mod button taction).key ≠ -1) :
    (written_slot H type k mod button taction).type = type ∧
    (written_slot H type k mod button taction).key = k ∧
    (written_slot H type k mod button taction).mod = mod ∧
    (written_slot H type k mod button taction).button = button := by
  unfold written_slot at h ⊢
  split_ifs at h ⊢ <;> simp_all

theorem same_trigger_iff (type : Int) (k mod button : Nat) (a : action_t) :
    same_trigger type k mod button a = true ↔
      a.type = type ∧ a.key = k ∧ a.mod = mod ∧ a.button = button := by
  simp [same_trigger, and_assoc]

theorem bind_key_store_unique (H : Header) (X : Xlib) (s : State) (type : Int)
    (k mod button : Nat) (taction : Action)
    (hs : unique_bound_triggers s.key_actions) :
    unique_bound_triggers (bind_key_store H X s type k mod button taction).2.key_actions := by
  have hs := id hs
  unfold unique_bound_triggers at hs
  cases hf : find_binding (same_trigger type k mod button) s.key_actions with
  | none =>
    have hfresh := find_binding_eq_none.mp hf
    rw [bind_key_store_fresh H X s type k mod button taction hfresh]
    have hnew : ∀ b ∈ s.key_actions, ∀ c : action_t,
        c = written_slot H type k mod button taction → c.key ≠ -1 →
        ¬ (c.type = b.type ∧ c.key = b.key ∧ c.mod = b.mod ∧ c.button = b.button) := by
      intro b hb c hc hkey hq
      subst hc
      obtain ⟨h1, h2, h3, h4⟩ := written_slot_bound H type k mod button taction hkey
      have := hfresh b hb
      rw [← Bool.not_eq_true, same_trigger_iff] at this
      exact this ⟨by rw [← hq.1, h1], by rw [← hq.2.1, h2], by rw [← hq.2.2.1, h3],
        by rw [← hq.2.2.2, h4]⟩
    unfold unique_bound_triggers
    intro i j a b hij ha hb hka hkb hq
    simp only at ha hb
    rcases Nat.lt_trichotomy i s.key_actions.length with hi | hi | hi
    · rw [List.getElem?_append_left hi] at ha
      rcases Nat.lt_trichotomy j s.key_actions.length with hj | hj | hj
      · rw [List.getElem?_append_left hj] at hb
        exact hs i j a b hij ha hb hka hkb hq
      · subst hj
        simp at hb
        exact hnew a (List.getElem?_mem ha) b hb.symm hkb
          ⟨hq.1.symm, hq.2.1.symm, hq.2.2.1.symm, hq.2.2.2.symm⟩
      · rw [List.getElem?_eq_none (by simp; omega)] at hb
        cases hb
    · subst hi
      simp at ha
      rcases Nat.lt_trichotomy j s.key_actions.length with hj | hj | hj
      · rw [List.getElem?_append_left hj] at hb
        exact hnew b (List.getElem?_mem hb) a ha.symm hka hq
      · exact hij hj.symm
      · rw [List.getElem?_eq_none (by simp; omega)] at hb
        cases hb
    · rw [List.getElem?_eq_none (by simp; omega)] at ha
      cases ha
  | some x =>
    rw [bind_key_store_found H X s type k mod button taction x hf]
    obtain ⟨old, hold, htest, _⟩ := find_binding_eq_some hf
    rw [same_trigger_iff] at htest
    have holdkey : old.key ≠ -1 := by rw [htest.2.1]; omega
    have hnew : ∀ j b, j ≠ x → s.key_actions[j]? = some b → b.key ≠ -1 → ∀ c : action_t,
        c = written_slot H type k mod button taction → c.key ≠ -1 →
        ¬ (c.type = b.type ∧ c.key = b.key ∧ c.mod = b.mod ∧ c.button = b.button) := by
      intro j b hj hb hkb c hc hkc hq
      subst hc
      obtain ⟨h1, h2, h3, h4⟩ := written_slot_bound H type k mod button taction hkc
      refine hs x j old b (Ne.symm hj) hold hb holdkey hkb ⟨?_, ?_, ?_, ?_⟩
      · rw [htest.1, ← h1]; exact hq.1
      · rw [htest.2.1, ← h2]; exact hq.2.1
      · rw [htest.2.2.1, ← h3]; exact hq.2.2.1
      · rw [htest.2.2.2, ← h4]; exact hq.2.2.2
    unfold unique_bound_triggers
    intro i j a b hij ha hb hka hkb hq
    simp only at ha hb
    by_cases hix : i = x
    · subst hix
      have hjx : j ≠ i := Ne.symm hij
      rw [List.getElem?_set_ne (Ne.symm hjx)] at hb
      have hlt : i < s.key_actions.length := by
        rcases Nat.lt_or_ge i s.key_actions.length with h | h
        · exact h
        · rw [List.getElem?_eq_none h] at hold; cases hold
      rw [List.getElem?_set_self hlt] at ha
      simp at ha
      exact hnew j b hjx hb hkb a ha.symm hka hq
    · rw [List.getElem?_set_ne (Ne.symm hix)] at ha
      by_cases hjx : j = x
      · subst hjx
        have hlt : j < s.key_actions.length := by
          rcases Nat.lt_or_ge j s.key_actions.length with h | h
          · exact h
          · rw [List.getElem?_eq_none h] at hold; cases hold
        rw [List.getElem?_set_self hlt] at hb
        simp at hb
        exact hnew i a hix ha hka b hb.symm hkb
          ⟨hq.1.symm, hq.2.1.symm, hq.2.2.1.symm, hq.2.2.2.symm⟩
      · rw [List.getElem?_set_ne (Ne.symm hjx)] at hb
        exact hs i j a b hij ha hb hka hkb hq

theorem bind_key_unique (H : Header) (X : Xlib) (s : State) (type : Int)
    (key action : CString) (hs : unique_bound_triggers s.key_actions) :
    unique_bound_triggers (bind_key H X s type key action).2.key_actions := by
  unfold bind_key
  split
  · exact hs
  · split
    · exact hs
    · exact bind_key_store_unique H X s type _ _ _ _ hs

theorem bind_keys_unique_from (H : Header) (X : Xlib) (calls : List (Int × CString × CString))
    (s : State) (hs : unique_bound_triggers s.key_actions) :
    unique_bound_triggers (bind_keys H X s calls).key_actions := by
  induction calls generalizing s with
  | nil => exact hs
  | cons c rest ih =>
    obtain ⟨type, key, action⟩ := c
    exact ih _ (bind_key_unique H X s type key action hs)

/-- C5, as stated, at a concrete run: from the empty table, binding `a` and
`b` and then unbinding both leaves two entries with the same (trigger class,
key symbol, modifier mask, button), the unbound marker (0, -1, -1, 0). -/
theorem unique_triggers_counterexample :
    (bind_keys progman_h sample_xlib State.init
      [(0, "a".toList, "cycle".toList), (0, "b".toList, "close".toList),
       (0, "a".toList, "".toList), (0, "b".toList, "".toList)]).key_actions =
      [⟨-1, -1, 0, 0, 0, 0, none⟩, ⟨-1, -1, 0, 0, 0, 0, none⟩] ∧
    ¬ unique_triggers (bind_keys progman_h sample_xlib State.init
      [(0, "a".toList, "cycle".toList), (0, "b".toList, "close".toList),
       (0, "a".toList, "".toList), (0, "b".toList, "".toList)]).key_actions := by
  have htable : (bind_keys progman_h sample_xlib State.init
      [(0, "a".toList, "cycle".toList), (0, "b".toList, "close".toList),
       (0, "a".toList, "".toList), (0, "b".toList, "".toList)]).key_actions =
      [⟨-1, -1, 0, 0, 0, 0, none⟩, ⟨-1, -1, 0, 0, 0, 0, none⟩] := by decide
  refine ⟨htable, ?_⟩
  rw [htable]
  intro h
  unfold unique_triggers at h
  exact h 0 1 _ _ (by decide) rfl rfl ⟨rfl, rfl, rfl, rfl⟩

/-- C5, amended: starting from the empty table, after any sequence of
`bind_key` calls (including calls with the empty unbind action and calls that
fail), no two table entries other than unbound markers (key -1) have the same
(trigger_class, key_symbol, modifier_mask, button). -/
theorem bind_keys_unique_bound (H : Header) (X : Xlib)
    (calls : List (Int × CString × CString)) :
    unique_bound_triggers (bind_keys H X State.init calls).key_actions :=
  bind_keys_unique_from H X calls State.init (by
    unfold unique_bound_triggers
    intro i j a b _ ha
    simp [State.init] at ha)

/-! ## C6 -/

theorem alias_characters :
    ∀ p ∈ modifier_aliases, ∀ y ∈ p.1,
      y ≠ '+' ∧ toupper y ≠ '+' ∧ tolower y = y ∧ tolower (toupper y) = y := by
  decide

theorem spells_lower (s a : CString)
    (ha : ∀ y ∈ a, y ≠ '+' ∧ toupper y ≠ '+' ∧ tolower y = y ∧ tolower (toupper y) = y)
    (h : spells s a = true) : '+' ∉ s ∧ s.map tolower = a := by
  induction s generalizing a with
  | nil =>
    cases a with
    | nil => simp
    | cons y a => simp [spells] at h
  | cons x s ih =>
    cases a with
    | nil => simp [spells] at h
    | cons y a =>
      simp only [spells, Bool.and_eq_true, Bool.or_eq_true, beq_iff_eq] at h
      obtain ⟨hxy, hrest⟩ := h
      obtain ⟨h1, h2, h3, h4⟩ := ha y (by simp)
      obtain ⟨hplus, hmap⟩ := ih a (fun z hz => ha z (by simp [hz])) hrest
      rcases hxy with hx | hx
      · subst hx
        exact ⟨by simp [hplus, Ne.symm h1], by simp [h3, hmap]⟩
      · subst hx
        exact ⟨by simp [hplus, Ne.symm h2], by simp [h4, hmap]⟩

theorem names_group_bit (segment : CString) (bit : Nat) (h : names_group segment bit = true) :
    '+' ∉ segment ∧ modifier_bit segment = some bit := by
  simp only [names_group, List.any_eq_true, Bool.and_eq_true, beq_iff_eq] at h
  obtain ⟨p, hp, hbit, hsp⟩ := h
  obtain ⟨hplus, hmap⟩ := spells_lower segment p.1 (alias_characters p hp) hsp
  refine ⟨hplus, ?_⟩
  subst hbit
  simp only [modifier_aliases, List.mem_cons, List.mem_singleton] at hp
  unfold modifier_bit strcasecmp
  rw [hmap]
  rcases hp with hp | hp | hp | hp | hp | hp | hp | hp | hp | hp | hp | hp | hp <;>
    first
    | (subst hp; decide)
    | (simp at hp)

theorem strchr_segment (segment rest : CString) (h : '+' ∉ segment) :
    strchr (segment ++ '+' :: rest) '+' = some (segment, rest) := by
  induction segment with
  | nil => simp [strchr]
  | cons x xs ih =>
    have hx : x ≠ '+' := fun hc => h (by simp [hc])
    have hxs : '+' ∉ xs := fun hc => h (by simp [hc])
    simp [strchr, hx, ih hxs]

theorem strchr_absent (s : CString) (c : Char) (h : c ∉ s) : strchr s c = none := by
  induction s with
  | nil => simp [strchr]
  | cons x xs ih =>
    have hx : x ≠ c := fun hc => h (by simp [hc])
    have hxs : c ∉ xs := fun hc => h (by simp [hc])
    simp [strchr, hx, ih hxs]

theorem modifier_loop_descriptor (named : List (CString × Nat)) (last : CString)
    (hn : ∀ p ∈ named, names_group p.1 p.2 = true) (hl : '+' ∉ last)
    (fuel mod : Nat) (hfuel : (descriptor (named.map Prod.fst) last).length ≤ fuel) :
    modifier_loop fuel (descriptor (named.map Prod.fst) last) mod =
      .ok ((named.map Prod.snd).foldl (fun m b => m ||| b) mod, last) := by
  induction named generalizing fuel mod with
  | nil =>
    cases fuel with
    | zero => simp [descriptor, modifier_loop]
    | succ fuel => simp [descriptor, modifier_loop, strchr_absent last '+' hl]
  | cons p rest ih =>
    obtain ⟨hplus, hbit⟩ := names_group_bit p.1 p.2 (hn p (by simp))
    simp only [List.map_cons, descriptor, List.length_append, List.length_cons] at hfuel ⊢
    cases fuel with
    | zero => omega
    | succ fuel =>
      unfold modifier_loop
      rw [strchr_segment p.1 _ hplus]
      simp only [hbit, List.foldl_cons]
      exact ih (fun q hq => hn q (by simp [hq])) fuel _ (by omega)

theorem testBit_foldl_or (bits : List Nat) (m i : Nat) :
    (bits.foldl (fun m b => m ||| b) m).testBit i =
      (m.testBit i || bits.any (fun b => b.testBit i)) := by
  induction bits generalizing m with
  | nil => simp
  | cons b rest ih =>
    simp only [List.foldl_cons, ih, Nat.testBit_lor, List.any_cons, Bool.or_assoc]

theorem or_bits_same_set (bits bits' : List Nat) (h : ∀ b, b ∈ bits ↔ b ∈ bits') :
    or_bits bits = or_bits bits' := by
  apply Nat.eq_of_testBit_eq
  intro i
  unfold or_bits
  rw [testBit_foldl_or, testBit_foldl_or]
  congr 1
  rw [Bool.eq_iff_iff]
  simp only [List.any_eq_true]
  constructor
  · rintro ⟨b, hb, hi⟩
    exact ⟨b, (h b).mp hb, hi⟩
  · rintro ⟨b, hb, hi⟩
    exact ⟨b, (h b).mpr hb, hi⟩

/-- C6: for a descriptor whose segments before the last are each some
upper/lower-case spelling of an alias of the table, the modifier loop of
`bind_key` ends with `mod` equal to the bitwise OR of the bits of the named
groups and with the last segment left as the trigger, so `bind_key` parses
the descriptor with that mask; and a second descriptor that names the same
set of groups, in whatever letter case, alias, order or repetition, gets the
same mask. -/
theorem modifier_mask_alias_groups (X : Xlib) (named named' : List (CString × Nat))
    (last last' : CString)
    (hn : ∀ p ∈ named, names_group p.1 p.2 = true)
    (hn' : ∀ p ∈ named', names_group p.1 p.2 = true)
    (hl : '+' ∉ last) (hl' : '+' ∉ last')
    (hsame : (∀ bit ∈ named.map Prod.snd, bit ∈ named'.map Prod.snd) ∧
      (∀ bit ∈ named'.map Prod.snd, bit ∈ named.map Prod.snd)) :
    modifier_loop (descriptor (named.map Prod.fst) last).length
      (descriptor (named.map Prod.fst) last) 0 =
      .ok (or_bits (named.map Prod.snd), last) ∧
    modifier_loop (descriptor (named'.map Prod.fst) last').length
      (descriptor (named'.map Prod.fst) last') 0 =
      .ok (or_bits (named.map Prod.snd), last') ∧
    (∀ k button, bind_key_trigger X last = .ok (k, button) →
      bind_key_descriptor X (descriptor (named.map Prod.fst) last) =
        .ok (k, or_bits (named.map Prod.snd), button)) ∧
    (∀ k button, bind_key_trigger X last' = .ok (k, button) →
      bind_key_descriptor X (descriptor (named'.map Prod.fst) last') =
        .ok (k, or_bits (named.map Prod.snd), button)) := by
  have h1 := modifier_loop_descriptor named last hn hl _ 0 (Nat.le_refl _)
  have h2 := modifier_loop_descriptor named' last' hn' hl' _ 0 (Nat.le_refl _)
  have hor : or_bits (named'.map Prod.snd) = or_bits (named.map Prod.snd) :=
    (or_bits_same_set _ _ (fun b => ⟨hsame.1 b, hsame.2 b⟩)).symm
  have h2' : modifier_loop (descriptor (named'.map Prod.fst) last').length
      (descriptor (named'.map Prod.fst) last') 0 =
      .ok (or_bits (named.map Prod.snd), last') := by
    rw [h2, ← hor]; rfl
  refine ⟨h1, h2', ?_, ?_⟩
  · intro k button ht
    unfold bind_key_descriptor
    rw [h1]
    simp [ht, or_bits]
  · intro k button ht
    unfold bind_key_descriptor
    rw [h2']
    simp [ht]

/-- C6 at a concrete input: `Ctrl+ALT+x` and `meta+alt+CTL+control+F1` name
the same groups and both get the mask ControlMask | Mod1Mask = 12. -/
theorem modifier_mask_alias_groups_witness :
    modifier_loop "Ctrl+ALT+x".toList.length "Ctrl+ALT+x".toList 0 = .ok (12, "x".toList) ∧
    modifier_loop "meta+alt+CTL+control+F1".toList.length
      "meta+alt+CTL+control+F1".toList 0 = .ok (12, "F1".toList) ∧
    (∀ k button, bind_key_trigger sample_xlib "x".toList = .ok (k, button) →
      bind_key_descriptor sample_xlib "Ctrl+ALT+x".toList = .ok (k, 12, button)) ∧
    (∀ k button, bind_key_trigger sample_xlib "F1".toList = .ok (k, button) →
      bind_key_descriptor sample_xlib "meta+alt+CTL+control+F1".toList =
        .ok (k, 12, button)) :=
  modifier_mask_alias_groups sample_xlib
    [("Ctrl".toList, 4), ("ALT".toList, 8)]
    [("meta".toList, 8), ("alt".toList, 8), ("CTL".toList, 4), ("control".toList, 4)]
    "x".toList "F1".toList (by decide) (by decide) (by decide) (by decide) (by decide)

/-! ## C7 -/

theorem char_between (c lo hi : Char) (h1 : lo ≤ c) (h2 : c ≤ hi) :
    lo.toNat ≤ c.toNat ∧ c.toNat ≤ hi.toNat := by
  rw [Char.le_def] at h1 h2
  exact ⟨h1, h2⟩

theorem isalpha_mem (c : Char) (h : isalpha c = true) :
    c ∈ "abcdefghijklmnopqrstuvwxyzABCDEFGHIJKLMNOPQRSTUVWXYZ".toList := by
  simp only [isalpha, Bool.or_eq_true, Bool.and_eq_true, decide_eq_true_eq] at h
  have e := Char.ofNat_toNat c
  rcases h with h | h
  · obtain ⟨h1, h2⟩ := char_between c 'a' 'z' h.1 h.2
    generalize c.toNat = n at h1 h2 e
    have h1' : 97 ≤ n := h1
    have h2' : n ≤ 122 := h2
    subst e
    interval_cases n <;> decide
  · obtain ⟨h1, h2⟩ := char_between c 'A' 'Z' h.1 h.2
    generalize c.toNat = n at h1 h2 e
    have h1' : 65 ≤ n := h1
    have h2' : n ≤ 90 := h2
    subst e
    interval_cases n <;> decide

theorem letter_case_facts :
    ∀ c ∈ "abcdefghijklmnopqrstuvwxyzABCDEFGHIJKLMNOPQRSTUVWXYZ".toList,
      tolower (toupper c) = tolower c ∧ tolower (tolower c) = tolower c ∧
      toupper c ≠ '+' ∧ tolower c ≠ '+' := by
  decide

theorem bind_key_trigger_single (X : Xlib) (x : Char)
    (hsym : X.XStringToKeysym [tolower x] ≠ 0) :
    bind_key_trigger X [x] = .ok (X.XStringToKeysym [tolower x], 0) := by
  simp [bind_key_trigger, strncasecmp, hsym]

theorem handle_key_event_lookup_single (H : Header) (a : action_t) (kc state : Nat) :
    handle_key_event_lookup H [a] kc state =
      if a.type = H.BINDING_TYPE_KEYBOARD ∧ a.key = kc ∧ a.mod = state then some 0 else none := by
  simp only [handle_key_event_lookup, find_binding]
  by_cases h1 : a.type = H.BINDING_TYPE_KEYBOARD <;> by_cases h2 : a.key = (kc : Int) <;>
    by_cases h3 : a.mod = (state : Int) <;> simp [h1, h2, h3]

/-- C7, as stated, at a concrete input: with the prefix `shift` (mask m = 1)
and the letter `t`, after `bind_key(BINDING_TYPE_KEYBOARD, "shift+T",
"cycle")` on the empty table a key press with the symbol of `t` and state
m|Shift resolves to the binding, since m|Shift = m. -/
theorem single_character_shift_counterexample :
    names_group "shift".toList 1 = true ∧
    isalpha 't' = true ∧
    descriptor ["shift".toList] [toupper 't'] = "shift+T".toList ∧
    (bind_key progman_h sample_xlib State.init progman_h.BINDING_TYPE_KEYBOARD
      "shift+T".toList "cycle".toList).2.key_actions = [⟨116, 1, 0, 0, 2, 0, none⟩] ∧
    sample_xlib.XStringToKeysym [tolower 't'] = 116 ∧
    handle_key_event_lookup progman_h
      (bind_key progman_h sample_xlib State.init progman_h.BINDING_TYPE_KEYBOARD
        "shift+T".toList "cycle".toList).2.key_actions 116 (1 ||| ShiftMask) = some 0 := by
  refine ⟨by decide, by decide, by decide, by decide, by decide, by decide⟩

/-- C7, amended: for every letter c and every valid modifier prefix with mask
m (a prefix that names shift included), when the keysym table resolves
lower(c), to a symbol other than that of upper(c), binding prefix + upper(c)
to a real action in the keyboard class on the empty table stores one entry
whose key symbol is that of lower(c), the same table as binding prefix +
lower(c); a key press with the symbol of lower(c) and state m resolves to
that entry; a key press with the symbol of upper(c) resolves to no binding,
whatever its state; and, only this clause being conditional, a key press
with the symbol of lower(c) and state m|Shift resolves to no binding when
the prefix does not name shift (m|Shift differs from m). -/
theorem single_character_case_folded (H : Header) (X : Xlib) (named : List (CString × Nat))
    (c : Char) (a : CString) (t : Action)
    (hn : ∀ p ∈ named, names_group p.1 p.2 = true)
    (hc : isalpha c = true)
    (hsym : X.XStringToKeysym [tolower c] ≠ 0)
    (hdist : X.XStringToKeysym [toupper c] ≠ X.XStringToKeysym [tolower c])
    (ha : parse_action H (descriptor (named.map Prod.fst) [toupper c]) a = .ok t)
    (hreal : t.action ≠ H.ACTION_NONE) :
    (bind_key H X State.init H.BINDING_TYPE_KEYBOARD
      (descriptor (named.map Prod.fst) [toupper c]) a).2.key_actions =
      [⟨X.XStringToKeysym [tolower c], or_bits (named.map Prod.snd), 0,
        H.BINDING_TYPE_KEYBOARD, t.action, t.iarg, t.sarg⟩] ∧
    (bind_key H X State.init H.BINDING_TYPE_KEYBOARD
      (descriptor (named.map Prod.fst) [toupper c]) a).2 =
      (bind_key H X State.init H.BINDING_TYPE_KEYBOARD
        (descriptor (named.map Prod.fst) [tolower c]) a).2 ∧
    handle_key_event_lookup H
      (bind_key H X State.init H.BINDING_TYPE_KEYBOARD
        (descriptor (named.map Prod.fst) [toupper c]) a).2.key_actions
      (X.XStringToKeysym [tolower c]) (or_bits (named.map Prod.snd)) = some 0 ∧
    (or_bits (named.map Prod.snd) ||| ShiftMask ≠ or_bits (named.map Prod.snd) →
      handle_key_event_lookup H
        (bind_key H X State.init H.BINDING_TYPE_KEYBOARD
          (descriptor (named.map Prod.fst) [toupper c]) a).2.key_actions
        (X.XStringToKeysym [tolower c]) (or_bits (named.map Prod.snd) ||| ShiftMask) = none) ∧
    ∀ state, handle_key_event_lookup H
      (bind_key H X State.init H.BINDING_TYPE_KEYBOARD
        (descriptor (named.map Prod.fst) [toupper c]) a).2.key_actions
      (X.XStringToKeysym [toupper c]) state = none := by
  obtain ⟨f1, f2, f3, f4⟩ := letter_case_facts c (isalpha_mem c hc)
  have hup : bind_key_trigger X [toupper c] = .ok (X.XStringToKeysym [tolower c], 0) := by
    have := bind_key_trigger_single X (toupper c) (by rw [f1]; exact hsym)
    rw [f1] at this
    exact this
  have hlo : bind_key_trigger X [tolower c] = .ok (X.XStringToKeysym [tolower c], 0) := by
    have := bind_key_trigger_single X (tolower c) (by rw [f2]; exact hsym)
    rw [f2] at this
    exact this
  have hplus_up : '+' ∉ [toupper c] := by simp [Ne.symm f3]
  have hplus_lo : '+' ∉ [tolower c] := by simp [Ne.symm f4]
  have hd_up : bind_key_descriptor X (descriptor (named.map Prod.fst) [toupper c]) =
      .ok (X.XStringToKeysym [tolower c], or_bits (named.map Prod.snd), 0) := by
    unfold bind_key_descriptor
    rw [modifier_loop_descriptor named [toupper c] hn hplus_up _ 0 (Nat.le_refl _)]
    simp [hup, or_bits]
  have hd_lo : bind_key_descriptor X (descriptor (named.map Prod.fst) [tolower c]) =
      .ok (X.XStringToKeysym [tolower c], or_bits (named.map Prod.snd), 0) := by
    unfold bind_key_descriptor
    rw [modifier_loop_descriptor named [tolower c] hn hplus_lo _ 0 (Nat.le_refl _)]
    simp [hlo, or_bits]
  have ha_lo : parse_action H (descriptor (named.map Prod.fst) [tolower c]) a = .ok t := ha
  have hfresh : ∀ b ∈ State.init.key_actions, same_trigger H.BINDING_TYPE_KEYBOARD
      (X.XStringToKeysym [tolower c]) (or_bits (named.map Prod.snd)) 0 b = false := by
    simp [State.init]
  have hstate : (bind_key H X State.init H.BINDING_TYPE_KEYBOARD
      (descriptor (named.map Prod.fst) [toupper c]) a).2 =
      ⟨[⟨X.XStringToKeysym [tolower c], or_bits (named.map Prod.snd), 0,
        H.BINDING_TYPE_KEYBOARD, t.action, t.iarg, t.sarg⟩],
       [XCall.XGrabKey (X.XKeysymToKeycode (X.XStringToKeysym [tolower c]))
         (or_bits (named.map Prod.snd))]⟩ := by
    rw [bind_key_ok H X _ _ _ _ _ _ _ t hd_up ha, bind_key_store_fresh H X _ _ _ _ _ t hfresh]
    simp [State.init, written_slot, hreal]
  have hstate_lo : (bind_key H X State.init H.BINDING_TYPE_KEYBOARD
      (descriptor (named.map Prod.fst) [tolower c]) a).2 =
      ⟨[⟨X.XStringToKeysym [tolower c], or_bits (named.map Prod.snd), 0,
        H.BINDING_TYPE_KEYBOARD, t.action, t.iarg, t.sarg⟩],
       [XCall.XGrabKey (X.XKeysymToKeycode (X.XStringToKeysym [tolower c]))
         (or_bits (named.map Prod.snd))]⟩ := by
    rw [bind_key_ok H X _ _ _ _ _ _ _ t hd_lo ha_lo, bind_key_store_fresh H X _ _ _ _ _ t hfresh]
    simp [State.init, written_slot, hreal]
  rw [hstate, hstate_lo]
  refine ⟨rfl, rfl, ?_, ?_, ?_⟩
  · rw [handle_key_event_lookup_single]
    simp
  · intro hshift
    rw [handle_key_event_lookup_single]
    have : ¬ ((or_bits (named.map Prod.snd) : Int) =
        ((or_bits (named.map Prod.snd) ||| ShiftMask : Nat) : Int)) := by
      intro h
      exact hshift (Int.ofNat.inj h).symm
    simp [this]
  · intro state
    rw [handle_key_event_lookup_single]
    have : ¬ ((X.XStringToKeysym [tolower c] : Int) = (X.XStringToKeysym [toupper c] : Int)) := by
      intro h
      exact hdist (Int.ofNat.inj h).symm
    simp [this]

/-- C7, amended, at concrete inputs: `Win+T` bound to `cycle`, where the
prefix does not name shift, and `Win+Shift+T` bound to `cycle`, the explicit
form for a capital letter. -/
theorem single_character_case_folded_witness :
    ((bind_key progman_h sample_xlib State.init progman_h.BINDING_TYPE_KEYBOARD
      (descriptor ([("Win".toList, 64)].map Prod.fst) [toupper 't']) "cycle".toList).2.key_actions =
      [⟨sample_xlib.XStringToKeysym [tolower 't'], or_bits ([("Win".toList, 64)].map Prod.snd), 0,
        progman_h.BINDING_TYPE_KEYBOARD, (⟨2, 0, none⟩ : Action).action,
        (⟨2, 0, none⟩ : Action).iarg, (⟨2, 0, none⟩ : Action).sarg⟩] ∧
    (bind_key progman_h sample_xlib State.init progman_h.BINDING_TYPE_KEYBOARD
      (descriptor ([("Win".toList, 64)].map Prod.fst) [toupper 't']) "cycle".toList).2 =
      (bind_key progman_h sample_xlib State.init progman_h.BINDING_TYPE_KEYBOARD
        (descriptor ([("Win".toList, 64)].map Prod.fst) [tolower 't']) "cycle".toList).2 ∧
    handle_key_event_lookup progman_h
      (bind_key progman_h sample_xlib State.init progman_h.BINDING_TYPE_KEYBOARD
        (descriptor ([("Win".toList, 64)].map Prod.fst) [toupper 't']) "cycle".toList).2.key_actions
      (sample_xlib.XStringToKeysym [tolower 't'])
      (or_bits ([("Win".toList, 64)].map Prod.snd)) = some 0 ∧
    handle_key_event_lookup progman_h
      (bind_key progman_h sample_xlib State.init progman_h.BINDING_TYPE_KEYBOARD
        (descriptor ([("Win".toList, 64)].map Prod.fst) [toupper 't']) "cycle".toList).2.key_actions
      (sample_xlib.XStringToKeysym [tolower 't'])
      (or_bits ([("Win".toList, 64)].map Prod.snd) ||| ShiftMask) = none ∧
    ∀ state, handle_key_event_lookup progman_h
      (bind_key progman_h sample_xlib State.init progman_h.BINDING_TYPE_KEYBOARD
        (descriptor ([("Win".toList, 64)].map Prod.fst) [toupper 't']) "cycle".toList).2.key_actions
      (sample_xlib.XStringToKeysym [toupper 't']) state = none) ∧
    ((bind_key progman_h sample_xlib State.init progman_h.BINDING_TYPE_KEYBOARD
      (descriptor ([("Win".toList, 64), ("Shift".toList, 1)].map Prod.fst) [toupper 't'])
      "cycle".toList).2.key_actions =
      [⟨sample_xlib.XStringToKeysym [tolower 't'],
        or_bits ([("Win".toList, 64), ("Shift".toList, 1)].map Prod.snd), 0,
        progman_h.BINDING_TYPE_KEYBOARD, (⟨2, 0, none⟩ : Action).action,
        (⟨2, 0, none⟩ : Action).iarg, (⟨2, 0, none⟩ : Action).sarg⟩] ∧
    handle_key_event_lookup progman_h
      (bind_key progman_h sample_xlib State.init progman_h.BINDING_TYPE_KEYBOARD
        (descriptor ([("Win".toList, 64), ("Shift".toList, 1)].map Prod.fst) [toupper 't'])
        "cycle".toList).2.key_actions
      (sample_xlib.XStringToKeysym [tolower 't'])
      (or_bits ([("Win".toList, 64), ("Shift".toList, 1)].map Prod.snd)) = some 0 ∧
    ∀ state, handle_key_event_lookup progman_h
      (bind_key progman_h sample_xlib State.init progman_h.BINDING_TYPE_KEYBOARD
        (descriptor ([("Win".toList, 64), ("Shift".toList, 1)].map Prod.fst) [toupper 't'])
        "cycle".toList).2.key_actions
      (sample_xlib.XStringToKeysym [toupper 't']) state = none) :=
  ⟨(fun h => ⟨h.1, h.2.1, h.2.2.1, h.2.2.2.1 (by decide), h.2.2.2.2⟩)
      (single_character_case_folded progman_h sample_xlib [("Win".toList, 64)] 't'
        "cycle".toList ⟨2, 0, none⟩ (by decide) (by decide) (by decide) (by decide)
        (by decide) (by decide)),
    (fun h => ⟨h.1, h.2.2.1, h.2.2.2.2⟩)
      (single_character_case_folded progman_h sample_xlib
        [("Win".toList, 64), ("Shift".toList, 1)] 't'
        "cycle".toList ⟨2, 0, none⟩ (by decide) (by decide) (by decide) (by decide)
        (by decide) (by decide))⟩

/-! ## C8 -/

theorem tolower_eq (x y : Char) (h : tolower x = y) : x = y ∨ x = toupper y := by
  by_cases hx : 'A' ≤ x ∧ x ≤ 'Z'
  · right
    subst h
    obtain ⟨h1, h2⟩ := char_between x 'A' 'Z' hx.1 hx.2
    have e := Char.ofNat_toNat x
    generalize x.toNat = n at h1 h2 e
    have h1' : 65 ≤ n := h1
    have h2' : n ≤ 90 := h2
    subst e
    interval_cases n <;> decide
  · left
    simpa [tolower, hx] using h

theorem mouse_characters :
    ∀ y ∈ "mouse".toList,
      y ≠ '+' ∧ toupper y ≠ '+' ∧ tolower y = y ∧ tolower (toupper y) = y := by
  decide

theorem digit_not_plus (f : Char) (h1 : '1' ≤ f) : f ≠ '+' := by
  intro h
  subst h
  exact absurd h1 (by decide)

theorem digit_value_range (f : Char) (h1 : '1' ≤ f) (h2 : f ≤ '9') :
    1 ≤ digit_value f ∧ digit_value f ≤ 9 := by
  obtain ⟨a, b⟩ := char_between f '1' '9' h1 h2
  have a' : 49 ≤ f.toNat := a
  have b' : f.toNat ≤ 57 := b
  unfold digit_value
  omega

theorem bind_key_trigger_mouse (X : Xlib) (last : CString) (h : is_mouse_digit last = true) :
    '+' ∉ last ∧ bind_key_trigger X last = .ok (0, digit_value (last.getD 5 '\x00')) ∧
    1 ≤ digit_value (last.getD 5 '\x00') ∧ digit_value (last.getD 5 '\x00') ≤ 9 := by
  unfold is_mouse_digit at h
  split at h
  · rename_i a b c d e f
    simp only [Bool.and_eq_true, decide_eq_true_eq] at h
    obtain ⟨⟨hsp, h1⟩, h2⟩ := h
    obtain ⟨hplus, hmap⟩ := spells_lower _ _ mouse_characters hsp
    have hf := digit_not_plus f h1
    have h0 : '0' < f := Char.lt_def.mpr (by
      have := (char_between f '1' '9' h1 h2).1
      have h49 : 49 ≤ f.toNat := this
      show (48 : Nat) < f.toNat
      omega)
    refine ⟨?_, ?_, ?_⟩
    · simp only [List.mem_cons, List.mem_singleton, List.not_mem_nil, or_false, not_or] at hplus ⊢
      exact ⟨hplus.1, hplus.2.1, hplus.2.2.1, hplus.2.2.2.1, hplus.2.2.2.2, Ne.symm hf⟩
    · have hcmp : strncasecmp [a, b, c, d, e, f] "mouse".toList 5 = true := by
        simp only [strncasecmp, List.take, beq_iff_eq]
        rw [hmap]
        decide
      have hcmp' : strncasecmp [a, b, c, d, e, f] ['m', 'o', 'u', 's', 'e'] 5 = true := hcmp
      simp [bind_key_trigger, hcmp', h0, h2]
    · simpa using digit_value_range f h1 h2
  · cases h

theorem bind_key_trigger_key (X : Xlib) (last : CString) (hne : last ≠ [])
    (h : begins_mouse_digit last = false) :
    bind_key_trigger X last =
      if X.XStringToKeysym (key_name last) = 0 then .error .UnknownKey
      else .ok (X.XStringToKeysym (key_name last), 0) := by
  have hcond : (strncasecmp last "mouse".toList 5 && decide (last.getD 5 '\x00' > '0') &&
      decide (last.getD 5 '\x00' ≤ '9')) = false := by
    rw [Bool.eq_false_iff]
    intro hc
    simp only [Bool.and_eq_true, decide_eq_true_eq, strncasecmp, beq_iff_eq] at hc
    obtain ⟨⟨hcmp, h0⟩, h9⟩ := hc
    rcases last with _ | ⟨a, _ | ⟨b, _ | ⟨c, _ | ⟨d, _ | ⟨e, _ | ⟨f, tl⟩⟩⟩⟩⟩⟩
    · exact hne rfl
    · simp at hcmp
    · simp at hcmp
    · simp at hcmp
    · simp at hcmp
    · simp at h0
    · simp only [List.take, List.map_cons, List.map_nil] at hcmp
      have hm : [tolower a, tolower b, tolower c, tolower d, tolower e] =
          ['m', 'o', 'u', 's', 'e'] := by
        rw [hcmp]; decide
      simp only [List.cons.injEq, and_true] at hm
      obtain ⟨ha, hb, hc', hd, he⟩ := hm
      have h1 : '1' ≤ f := by
        have h0' : '0' < f := by simpa using h0
        have : (48 : Nat) < f.toNat := Char.lt_def.mp h0'
        exact Char.le_def.mpr (show (49 : Nat) ≤ f.toNat by omega)
      have h9' : f ≤ '9' := by simpa using h9
      have hsp : spells [a, b, c, d, e] "mouse".toList = true := by
        have e1 := tolower_eq a _ ha
        have e2 := tolower_eq b _ hb
        have e3 := tolower_eq c _ hc'
        have e4 := tolower_eq d _ hd
        have e5 := tolower_eq e _ he
        simp only [String.toList, spells, Bool.and_eq_true, Bool.or_eq_true, beq_iff_eq,
          and_true]
        exact ⟨e1, e2, e3, e4, e5⟩
      have hsp' : spells [a, b, c, d, e] ['m', 'o', 'u', 's', 'e'] = true := hsp
      simp [begins_mouse_digit, hsp', h1, h9'] at h
  unfold bind_key_trigger key_name
  rw [hcond]
  simp [hne]

/-- C8, as stated, at concrete inputs: for the final segment `mouse1x`, which
is not `mouse` followed by a single digit and nothing else, `bind_key` makes
a button binding (button 1, key symbol 0) and never consults the keysym
table, in which the name `mouse1x` is unknown; and for `MOUSE3`, where
`mouse` is spelled in upper case, it makes a button binding as well. -/
theorem mouse_trailing_counterexample :
    is_mouse_digit "mouse1x".toList = false ∧
    sample_xlib.XStringToKeysym "mouse1x".toList = 0 ∧
    bind_key progman_h sample_xlib State.init 1 "ctrl+mouse1x".toList "drag".toList =
      (.ok 0, ⟨[⟨0, 4, 1, 1, 15, 0, none⟩], []⟩) ∧
    bind_key progman_h ⟨fun _ => 0, fun _ => 0⟩ State.init 1 "ctrl+mouse1x".toList
      "drag".toList = (.ok 0, ⟨[⟨0, 4, 1, 1, 15, 0, none⟩], []⟩) ∧
    bind_key progman_h sample_xlib State.init 1 "MOUSE3".toList "drag".toList =
      (.ok 0, ⟨[⟨0, 0, 3, 1, 15, 0, none⟩], []⟩) := by
  refine ⟨by decide, by decide, by decide, by decide, by decide⟩

/-- C8, amended: after valid modifier segments, `bind_key` parses a button
binding (button = d, key symbol 0, whatever the keysym table holds) when the
final segment is `mouse`, in any letter case, followed by a single digit d in
1..9 and nothing else; and every non-empty final segment that does not begin
with `mouse` (in any letter case) followed by a digit 1..9 is treated as a key
name: it is resolved through the keysym table (a single character lower-cased
first), giving button 0 and the resolved key symbol, or UnknownKey when the
table does not have the name. -/
theorem trigger_button_or_key (X : Xlib) (named : List (CString × Nat)) (last : CString)
    (hn : ∀ p ∈ named, names_group p.1 p.2 = true) :
    (is_mouse_digit last = true →
      bind_key_descriptor X (descriptor (named.map Prod.fst) last) =
        .ok (0, or_bits (named.map Prod.snd), digit_value (last.getD 5 '\x00')) ∧
      1 ≤ digit_value (last.getD 5 '\x00') ∧ digit_value (last.getD 5 '\x00') ≤ 9) ∧
    (last ≠ [] → '+' ∉ last → begins_mouse_digit last = false →
      bind_key_descriptor X (descriptor (named.map Prod.fst) last) =
        if X.XStringToKeysym (key_name last) = 0 then .error .UnknownKey
        else .ok (X.XStringToKeysym (key_name last), or_bits (named.map Prod.snd), 0)) := by
  constructor
  · intro hm
    obtain ⟨hplus, htrig, hrange⟩ := bind_key_trigger_mouse X last hm
    refine ⟨?_, hrange⟩
    unfold bind_key_descriptor
    rw [modifier_loop_descriptor named last hn hplus _ 0 (Nat.le_refl _)]
    simp [htrig, or_bits]
  · intro hne hplus hb
    unfold bind_key_descriptor
    rw [modifier_loop_descriptor named last hn hplus _ 0 (Nat.le_refl _)]
    simp only
    rw [bind_key_trigger_key X last hne hb]
    by_cases hk : X.XStringToKeysym (key_name last) = 0 <;> simp [hk, or_bits]

/-- C8, amended, at concrete inputs: `Alt+Mouse2` is button 2, and `Alt+Tab`
is the key symbol of `Tab`. -/
theorem trigger_button_or_key_witness :
    (bind_key_descriptor sample_xlib (descriptor ([("Alt".toList, 8)].map Prod.fst) "Mouse2".toList) =
        .ok (0, or_bits ([("Alt".toList, 8)].map Prod.snd),
          digit_value ("Mouse2".toList.getD 5 '\x00')) ∧
      1 ≤ digit_value ("Mouse2".toList.getD 5 '\x00') ∧
      digit_value ("Mouse2".toList.getD 5 '\x00') ≤ 9) ∧
    bind_key_descriptor sample_xlib (descriptor ([("Alt".toList, 8)].map Prod.fst) "Tab".toList) =
      (if sample_xlib.XStringToKeysym (key_name "Tab".toList) = 0 then .error .UnknownKey
        else .ok (sample_xlib.XStringToKeysym (key_name "Tab".toList),
          or_bits ([("Alt".toList, 8)].map Prod.snd), 0)) :=
  ⟨(trigger_button_or_key sample_xlib [("Alt".toList, 8)] "Mouse2".toList (by decide)).1
      (by decide),
    (trigger_button_or_key sample_xlib [("Alt".toList, 8)] "Tab".toList (by decide)).2
      (by decide) (by decide) (by decide)⟩

/-! ## C9 -/

theorem digitChar_facts :
    ∀ d, d < 10 →
      isspace (Nat.digitChar d) = false ∧ Nat.digitChar d ≠ '-' ∧ Nat.digitChar d ≠ '+' ∧
      isdigit (Nat.digitChar d) = true ∧ digit_value (Nat.digitChar d) = d := by
  decide

theorem foldl_digit_value (ds : List Nat) (hd : ∀ d ∈ ds, d < 10) (acc : Nat) :
    (ds.map Nat.digitChar).foldl (fun acc d => acc * 10 + digit_value d) acc =
      ds.foldl (fun acc d => acc * 10 + d) acc := by
  induction ds generalizing acc with
  | nil => rfl
  | cons d rest ih =>
    simp only [List.map_cons, List.foldl_cons]
    rw [(digitChar_facts d (hd d (by simp))).2.2.2.2]
    exact ih (fun x hx => hd x (by simp [hx])) _

theorem takeWhile_isdigit (ds : List Nat) (hd : ∀ d ∈ ds, d < 10) :
    (ds.map Nat.digitChar).takeWhile isdigit = ds.map Nat.digitChar := by
  rw [List.takeWhile_eq_self_iff]
  intro c hc
  obtain ⟨d, hmem, rfl⟩ := List.mem_map.mp hc
  exact (digitChar_facts d (hd d hmem)).2.2.2.1

/-- The value `strtol` computes before the range check, for a run of digits
with an optional minus sign. -/
theorem strtol_digits (ds : List Nat) (hne : ds ≠ []) (hd : ∀ d ∈ ds, d < 10)
    (v : Nat) (hv : ds.foldl (fun acc d => acc * 10 + d) 0 = v)
    (hmax : (v : Int) ≤ LONG_MAX) :
    strtol (ds.map Nat.digitChar) = ((v : Int), false) ∧
    strtol ('-' :: ds.map Nat.digitChar) = (-(v : Int), false) := by
  have hfold := foldl_digit_value ds hd 0
  have htake := takeWhile_isdigit ds hd
  rw [hv] at hfold
  obtain ⟨d, rest, rfl⟩ := List.exists_cons_of_ne_nil hne
  obtain ⟨f1, f2, f3, _, _⟩ := digitChar_facts d (hd d (by simp))
  have hmax' : (v : Int) ≤ 9223372036854775807 := hmax
  have hnn : (0 : Int) ≤ (v : Int) := Int.ofNat_nonneg v
  constructor
  · unfold strtol
    simp only [List.map_cons, List.dropWhile, f1, f2, f3, if_false] at htake hfold ⊢
    rw [htake, hfold]
    simp only [Bool.false_eq_true, if_false, LONG_MAX, LONG_MIN]
    rw [if_neg (by omega), if_neg (by omega)]
  · unfold strtol
    have hminus : isspace '-' = false := by decide
    simp only [List.map_cons, List.dropWhile, hminus, if_true] at htake hfold ⊢
    rw [htake, hfold]
    simp only [if_true, LONG_MAX, LONG_MIN]
    rw [if_neg (by omega), if_neg (by omega)]

theorem decimal_digits (n : Nat) :
    ∃ ds : List Nat, ds ≠ [] ∧ (∀ d ∈ ds, d < 10) ∧ decimal n = ds.map Nat.digitChar ∧
      ds.foldl (fun acc d => acc * 10 + d) 0 = n := by
  by_cases h0 : n = 0
  · subst h0
    exact ⟨[0], by simp, by simp, by simp [decimal, Nat.digitChar], by simp⟩
  · refine ⟨(Nat.digits 10 n).reverse, ?_, ?_, by simp [decimal, h0], ?_⟩
    · simpa using Nat.digits_ne_nil_iff_ne_zero.mpr h0
    · intro d hd
      exact Nat.digits_lt_base (by norm_num) (List.mem_reverse.mp hd)
    · rw [List.foldl_reverse]
      have := Nat.ofDigits_digits 10 n
      rw [Nat.ofDigits_eq_foldr] at this
      simp only [Nat.cast_id] at this
      refine Eq.trans ?_ this
      congr 1
      funext x y
      omega

theorem strtol_numeral (n : Int) (hlo : -2147483648 ≤ n) (hhi : n ≤ 2147483647) :
    strtol (numeral n) = (n, false) := by
  obtain ⟨ds, hne, hd, hdec, hval⟩ := decimal_digits n.natAbs
  have hmax : ((n.natAbs : Nat) : Int) ≤ LONG_MAX := by
    unfold LONG_MAX
    omega
  obtain ⟨hpos, hneg⟩ := strtol_digits ds hne hd n.natAbs hval hmax
  unfold numeral
  rw [hdec]
  by_cases hn : n < 0
  · rw [if_pos hn, hneg]
    congr 1
    omega
  · rw [if_neg hn, hpos]
    congr 1
    omega

theorem numeral_head (n : Int) :
    ∃ c rest, numeral n = c :: rest ∧ c ≠ 'n' ∧ c ≠ 'p' ∧ c ≠ 'a' := by
  unfold numeral
  by_cases hn : n < 0
  · exact ⟨'-', _, by rw [if_pos hn], by decide, by decide, by decide⟩
  · obtain ⟨ds, hne, hd, hdec, _⟩ := decimal_digits n.natAbs
    obtain ⟨d, rest, rfl⟩ := List.exists_cons_of_ne_nil hne
    refine ⟨Nat.digitChar d, rest.map Nat.digitChar, by rw [if_neg hn, hdec]; rfl, ?_⟩
    have hlt : d < 10 := hd d (by simp)
    interval_cases d <;> decide

theorem long_to_int_id (n : Int) (hlo : -2147483648 ≤ n) (hhi : n ≤ 2147483647) :
    long_to_int n = n := by
  unfold long_to_int
  omega

theorem parse_action_desk (H : Header) (label rest : CString) :
    parse_action H label ('d' :: 'e' :: 's' :: 'k' :: ' ' :: rest) =
      if rest = "next".toList then .ok ⟨H.ACTION_DESK + 1, 0, none⟩
      else if rest = "previous".toList then .ok ⟨H.ACTION_DESK + 2, 0, none⟩
      else if rest = "all".toList then .ok ⟨H.ACTION_DESK, H.DESK_ALL, none⟩
      else if (strtol rest).2 then .error .BadArgument
      else .ok ⟨H.ACTION_DESK, long_to_int (strtol rest).1, none⟩ := by
  simp [parse_action, strchr]

theorem parse_action_move (H : Header) (label rest : CString) :
    parse_action H label ('m' :: 'o' :: 'v' :: 'e' :: ' ' :: rest) =
      if rest = "next".toList then .ok ⟨H.ACTION_MOVE + 1, 0, none⟩
      else if rest = "previous".toList then .ok ⟨H.ACTION_MOVE + 2, 0, none⟩
      else if rest = "all".toList then .ok ⟨H.ACTION_MOVE, H.DESK_ALL, none⟩
      else if (strtol rest).2 then .error .BadArgument
      else .ok ⟨H.ACTION_MOVE, long_to_int (strtol rest).1, none⟩ := by
  simp [parse_action, strchr]

theorem numeral_not_keyword (n : Int) :
    numeral n ≠ "next".toList ∧ numeral n ≠ "previous".toList ∧ numeral n ≠ "all".toList := by
  obtain ⟨c, rest, hc, h1, h2, h3⟩ := numeral_head n
  rw [hc]
  refine ⟨?_, ?_, ?_⟩ <;> intro h <;> injection h with hh _
  · exact h1 hh
  · exact h2 hh
  · exact h3 hh

/-- C9: for the command words `desk` and `move`, the remainder `next` yields
the base kind + 1 with integer argument 0, `previous` the base kind + 2 with
integer argument 0, `all` the base kind with the DESK_ALL sentinel, and the
base-10 numeral of any integer n of the `int` range the base kind with
integer argument exactly n; the string argument is absent in every case. -/
theorem parse_action_desk_move_arguments (H : Header) (label : CString) (n : Int)
    (hlo : -2147483648 ≤ n) (hhi : n ≤ 2147483647) :
    parse_action H label ("desk ".toList ++ "next".toList) = .ok ⟨H.ACTION_DESK + 1, 0, none⟩ ∧
    parse_action H label ("desk ".toList ++ "previous".toList) =
      .ok ⟨H.ACTION_DESK + 2, 0, none⟩ ∧
    parse_action H label ("desk ".toList ++ "all".toList) =
      .ok ⟨H.ACTION_DESK, H.DESK_ALL, none⟩ ∧
    parse_action H label ("desk ".toList ++ numeral n) = .ok ⟨H.ACTION_DESK, n, none⟩ ∧
    parse_action H label ("move ".toList ++ "next".toList) = .ok ⟨H.ACTION_MOVE + 1, 0, none⟩ ∧
    parse_action H label ("move ".toList ++ "previous".toList) =
      .ok ⟨H.ACTION_MOVE + 2, 0, none⟩ ∧
    parse_action H label ("move ".toList ++ "all".toList) =
      .ok ⟨H.ACTION_MOVE, H.DESK_ALL, none⟩ ∧
    parse_action H label ("move ".toList ++ numeral n) = .ok ⟨H.ACTION_MOVE, n, none⟩ := by
  obtain ⟨k1, k2, k3⟩ := numeral_not_keyword n
  have hs := strtol_numeral n hlo hhi
  have hi := long_to_int_id n hlo hhi
  refine ⟨?_, ?_, ?_, ?_, ?_, ?_, ?_, ?_⟩
  · exact (parse_action_desk H label "next".toList).trans (by simp)
  · exact (parse_action_desk H label "previous".toList).trans (by simp)
  · exact (parse_action_desk H label "all".toList).trans (by simp)
  · refine (parse_action_desk H label (numeral n)).trans ?_
    rw [if_neg k1, if_neg k2, if_neg k3, hs, hi]
    simp
  · exact (parse_action_move H label "next".toList).trans (by simp)
  · exact (parse_action_move H label "previous".toList).trans (by simp)
  · exact (parse_action_move H label "all".toList).trans (by simp)
  · refine (parse_action_move H label (numeral n)).trans ?_
    rw [if_neg k1, if_neg k2, if_neg k3, hs, hi]
    simp

/-- C9 at a concrete input: the numeral of -12, `desk -12` and `move -12`. -/
theorem parse_action_desk_move_arguments_witness :
    numeral (-12) = "-12".toList ∧
    parse_action progman_h [] ("desk ".toList ++ "next".toList) =
      .ok ⟨progman_h.ACTION_DESK + 1, 0, none⟩ ∧
    parse_action progman_h [] ("desk ".toList ++ "previous".toList) =
      .ok ⟨progman_h.ACTION_DESK + 2, 0, none⟩ ∧
    parse_action progman_h [] ("desk ".toList ++ "all".toList) =
      .ok ⟨progman_h.ACTION_DESK, progman_h.DESK_ALL, none⟩ ∧
    parse_action progman_h [] ("desk ".toList ++ numeral (-12)) =
      .ok ⟨progman_h.ACTION_DESK, -12, none⟩ ∧
    parse_action progman_h [] ("move ".toList ++ "next".toList) =
      .ok ⟨progman_h.ACTION_MOVE + 1, 0, none⟩ ∧
    parse_action progman_h [] ("move ".toList ++ "previous".toList) =
      .ok ⟨progman_h.ACTION_MOVE + 2, 0, none⟩ ∧
    parse_action progman_h [] ("move ".toList ++ "all".toList) =
      .ok ⟨progman_h.ACTION_MOVE, progman_h.DESK_ALL, none⟩ ∧
    parse_action progman_h [] ("move ".toList ++ numeral (-12)) =
      .ok ⟨progman_h.ACTION_MOVE, -12, none⟩ :=
  ⟨by norm_num [numeral, decimal]; decide,
    parse_action_desk_move_arguments progman_h [] (-12) (by decide) (by decide)⟩

/-! ## C10 -/

/-- C10, at the failing inputs: `desk 3abc` and `move 3abc` do not fail with
BadArgument, they yield the base kind with integer argument 3 (`strtol`
stops at the first non-digit and leaves `errno` at 0); likewise `desk abc`
and `desk` followed by a space and nothing else yield DESK with integer
argument 0. -/
theorem parse_action_malformed_number_accepted :
    parse_action progman_h [] "desk 3abc".toList = .ok ⟨progman_h.ACTION_DESK, 3, none⟩ ∧
    parse_action progman_h [] "move 3abc".toList = .ok ⟨progman_h.ACTION_MOVE, 3, none⟩ ∧
    parse_action progman_h [] "desk abc".toList = .ok ⟨progman_h.ACTION_DESK, 0, none⟩ ∧
    parse_action progman_h [] "desk ".toList = .ok ⟨progman_h.ACTION_DESK, 0, none⟩ := by
  refine ⟨by decide, by decide, by decide, by decide⟩

/-! ## C11 -/

/-- C11: for each kind that requires an argument (desk, move, exec),
`parse_action` of the bare command word, with no space and no remainder,
fails with MissingArgument and produces no Action. -/
theorem parse_action_missing_argument (H : Header) (label : CString) :
    parse_action H label "desk".toList = .error .MissingArgument ∧
    parse_action H label "move".toList = .error .MissingArgument ∧
    parse_action H label "exec".toList = .error .MissingArgument := by
  refine ⟨?_, ?_, ?_⟩
  · simp [parse_action, strchr]
  · simp [parse_action, strchr]
  · by_cases h : H.ACTION_EXEC = H.ACTION_DESK ∨ H.ACTION_EXEC = H.ACTION_MOVE
    · simp [parse_action, strchr, h]
    · simp [parse_action, strchr, h]

/-! ## C12 -/

theorem kind_ne (H : Header) (hH : H.kinds.Nodup) (i j : Nat) (a b : Int)
    (ha : H.kinds[i]? = some a) (hb : H.kinds[j]? = some b) (hij : i ≠ j) : a ≠ b := by
  intro hab
  subst hab
  have hi : i < H.kinds.length := by
    rcases Nat.lt_or_ge i H.kinds.length with h | h
    · exact h
    · rw [List.getElem?_eq_none h] at ha; cases ha
  have hj : j < H.kinds.length := by
    rcases Nat.lt_or_ge j H.kinds.length with h | h
    · exact h
    · rw [List.getElem?_eq_none h] at hb; cases hb
  rw [List.getElem?_eq_getElem hi] at ha
  rw [List.getElem?_eq_getElem hj] at hb
  have : H.kinds[i] = H.kinds[j] := by
    rw [Option.some.inj ha, Option.some.inj hb]
  exact hij ((List.Nodup.getElem_inj_iff hH).mp this)

/-- C12: for every string r (possibly empty, possibly containing spaces),
`parse_action("exec " + r)` yields kind EXEC with the string argument exactly
r and integer argument 0. -/
theorem parse_action_exec_verbatim (H : Header) (hH : H.labels_distinct)
    (label r : CString) :
    parse_action H label ("exec ".toList ++ r) = .ok ⟨H.ACTION_EXEC, 0, some r⟩ := by
  obtain ⟨h1, h2, _, _, _, _⟩ := hH
  show parse_action H label ('e' :: 'x' :: 'e' :: 'c' :: ' ' :: r) = _
  simp [parse_action, strchr, Ne.symm h1, Ne.symm h2]

/-- C12 at concrete inputs: `exec firefox --private`, and `exec` followed by
a space and nothing else. -/
theorem parse_action_exec_verbatim_witness :
    "exec ".toList ++ "firefox --private".toList = "exec firefox --private".toList ∧
    parse_action progman_h [] ("exec ".toList ++ "firefox --private".toList) =
      .ok ⟨progman_h.ACTION_EXEC, 0, some "firefox --private".toList⟩ ∧
    parse_action progman_h [] ("exec ".toList ++ []) = .ok ⟨progman_h.ACTION_EXEC, 0, some []⟩ :=
  ⟨by decide,
    parse_action_exec_verbatim progman_h (by decide) [] "firefox --private".toList,
    parse_action_exec_verbatim progman_h (by decide) [] []⟩

/-! ## C13 -/

/-- The function `parse_action` is its `strcmp` chain followed by its
`switch`, on the two halves of the text. -/
theorem parse_action_eq (H : Header) (label text : CString) :
    parse_action H label text =
      parse_action_switch H (command_kind H (command_word text)) (command_rest text) := by
  unfold parse_action command_word command_rest
  cases strchr text ' ' with
  | none => rfl
  | some p => rfl

theorem strchr_split (c : Char) (before after : CString) (h : c ∉ before) :
    strchr (before ++ c :: after) c = some (before, after) := by
  induction before with
  | nil => simp [strchr]
  | cons x xs ih =>
    have hx : x ≠ c := fun hc => h (by simp [hc])
    have hxs : c ∉ xs := fun hc => h (by simp [hc])
    simp [strchr, hx, ih hxs]

theorem strchr_before {s : CString} {c : Char} {before after : CString}
    (h : strchr s c = some (before, after)) : c ∉ before ∧ s = before ++ c :: after := by
  induction s generalizing before with
  | nil => simp [strchr] at h
  | cons x xs ih =>
    unfold strchr at h
    by_cases hx : x = c
    · simp only [hx, if_true, Option.some.injEq, Prod.mk.injEq] at h
      obtain ⟨h1, h2⟩ := h
      subst h1 h2 hx
      simp
    · simp only [hx, if_false] at h
      cases hr : strchr xs c with
      | none => simp [hr] at h
      | some p =>
        obtain ⟨b, a⟩ := p
        simp only [hr, Option.some.injEq, Prod.mk.injEq] at h
        obtain ⟨h1, h2⟩ := h
        subst h1 h2
        obtain ⟨i1, i2⟩ := ih hr
        refine ⟨?_, by rw [i2]; rfl⟩
        simp only [List.mem_cons, not_or]
        exact ⟨fun hc => hx hc.symm, i1⟩

theorem strchr_none {s : CString} {c : Char} (h : strchr s c = none) : c ∉ s := by
  induction s with
  | nil => simp
  | cons x xs ih =>
    unfold strchr at h
    by_cases hx : x = c
    · simp [hx] at h
    · simp only [hx, if_false] at h
      cases hr : strchr xs c with
      | none =>
        simp only [List.mem_cons, not_or]
        exact ⟨fun hc => hx hc.symm, ih hr⟩
      | some p => simp [hr] at h

theorem command_kind_unlisted (H : Header) (word : CString) (hw : word ∉ command_words) :
    command_kind H word =
      if word.head? = some '\n' ∨ word = [] then H.ACTION_NONE else H.ACTION_INVALID := by
  simp only [command_words, List.mem_cons, List.mem_singleton, List.not_mem_nil, or_false,
    not_or] at hw
  obtain ⟨h1, h2, h3, h4, h5, h6, h7, h8, h9, h10, h11, h12⟩ := hw
  unfold command_kind
  rw [if_neg h1, if_neg h2, if_neg h3, if_neg h4, if_neg h5, if_neg h6, if_neg h7, if_neg h8,
    if_neg h9, if_neg h10, if_neg h11, if_neg h12]

theorem none_ne_kinds (H : Header) (hH : H.enumerated) :
    H.ACTION_NONE ≠ H.ACTION_INVALID ∧ H.ACTION_NONE ≠ H.ACTION_CYCLE ∧
    H.ACTION_NONE ≠ H.ACTION_REVERSE_CYCLE ∧ H.ACTION_NONE ≠ H.ACTION_DESK ∧
    H.ACTION_NONE ≠ H.ACTION_DESK + 1 ∧ H.ACTION_NONE ≠ H.ACTION_DESK + 2 ∧
    H.ACTION_NONE ≠ H.ACTION_MOVE ∧ H.ACTION_NONE ≠ H.ACTION_MOVE + 1 ∧
    H.ACTION_NONE ≠ H.ACTION_MOVE + 2 ∧ H.ACTION_NONE ≠ H.ACTION_CLOSE ∧
    H.ACTION_NONE ≠ H.ACTION_EXEC ∧ H.ACTION_NONE ≠ H.ACTION_LAUNCHER ∧
    H.ACTION_NONE ≠ H.ACTION_RESTART ∧ H.ACTION_NONE ≠ H.ACTION_QUIT ∧
    H.ACTION_NONE ≠ H.ACTION_DRAG ∧ H.ACTION_NONE ≠ H.ACTION_FULL_SCREEN ∧
    H.ACTION_NONE ≠ H.ACTION_ICONIFY := by
  obtain ⟨hn, e1, e2, e3, e4⟩ := hH
  have n : ∀ (j : Nat) (b : Int), H.kinds[j]? = some b → 0 ≠ j → H.ACTION_NONE ≠ b :=
    fun j b hb hj => kind_ne H hn 0 j _ b rfl hb hj
  rw [← e1, ← e2, ← e3, ← e4]
  exact ⟨n 1 _ rfl (by decide), n 2 _ rfl (by decide), n 3 _ rfl (by decide),
    n 4 _ rfl (by decide), n 5 _ rfl (by decide), n 6 _ rfl (by decide),
    n 7 _ rfl (by decide), n 8 _ rfl (by decide), n 9 _ rfl (by decide),
    n 10 _ rfl (by decide), n 11 _ rfl (by decide), n 12 _ rfl (by decide),
    n 13 _ rfl (by decide), n 14 _ rfl (by decide), n 15 _ rfl (by decide),
    n 16 _ rfl (by decide), n 17 _ rfl (by decide)⟩

theorem command_kind_listed (H : Header) :
    command_kind H "cycle".toList = H.ACTION_CYCLE ∧
    command_kind H "reverse_cycle".toList = H.ACTION_REVERSE_CYCLE ∧
    command_kind H "desk".toList = H.ACTION_DESK ∧
    command_kind H "close".toList = H.ACTION_CLOSE ∧
    command_kind H "exec".toList = H.ACTION_EXEC ∧
    command_kind H "launcher".toList = H.ACTION_LAUNCHER ∧
    command_kind H "restart".toList = H.ACTION_RESTART ∧
    command_kind H "quit".toList = H.ACTION_QUIT ∧
    command_kind H "drag".toList = H.ACTION_DRAG ∧
    command_kind H "fullscreen".toList = H.ACTION_FULL_SCREEN ∧
    command_kind H "iconify".toList = H.ACTION_ICONIFY ∧
    command_kind H "move".toList = H.ACTION_MOVE := by
  refine ⟨?_, ?_, ?_, ?_, ?_, ?_, ?_, ?_, ?_, ?_, ?_, ?_⟩ <;> simp [command_kind]

theorem command_kind_none (H : Header) (hH : H.enumerated) (word : CString)
    (h : command_kind H word = H.ACTION_NONE) : word.head? = some '\n' ∨ word = [] := by
  obtain ⟨a1, a2, a3, a4, _, _, a7, _, _, a10, a11, a12, a13, a14, a15, a16, a17⟩ :=
    none_ne_kinds H hH
  obtain ⟨k1, k2, k3, k4, k5, k6, k7, k8, k9, k10, k11, k12⟩ := command_kind_listed H
  by_cases hw : word ∈ command_words
  · simp only [command_words, List.mem_cons, List.mem_singleton, List.not_mem_nil,
      or_false] at hw
    rcases hw with w | w | w | w | w | w | w | w | w | w | w | w <;> subst w
    · rw [k1] at h; exact absurd h.symm a2
    · rw [k2] at h; exact absurd h.symm a3
    · rw [k3] at h; exact absurd h.symm a4
    · rw [k4] at h; exact absurd h.symm a10
    · rw [k5] at h; exact absurd h.symm a11
    · rw [k6] at h; exact absurd h.symm a12
    · rw [k7] at h; exact absurd h.symm a13
    · rw [k8] at h; exact absurd h.symm a14
    · rw [k9] at h; exact absurd h.symm a15
    · rw [k10] at h; exact absurd h.symm a16
    · rw [k11] at h; exact absurd h.symm a17
    · rw [k12] at h; exact absurd h.symm a7
  · rw [command_kind_unlisted H word hw] at h
    by_cases hc : word.head? = some '\n' ∨ word = []
    · exact hc
    · rw [if_neg hc] at h
      exact absurd h.symm a1

theorem parse_action_switch_none (H : Header) (hH : H.enumerated) (k : Int)
    (targ : Option CString) (act : Action)
    (h : parse_action_switch H k targ = .ok act) (hk : act.action = H.ACTION_NONE) :
    k = H.ACTION_NONE ∧ targ = none := by
  obtain ⟨a1, a2, a3, a4, a5, a6, a7, a8, a9, a10, a11, a12, a13, a14, a15, a16, a17⟩ :=
    none_ne_kinds H hH
  unfold parse_action_switch at h
  by_cases c1 : k = H.ACTION_DESK ∨ k = H.ACTION_MOVE
  · rw [if_pos c1] at h
    have hbase : k ≠ H.ACTION_NONE ∧ k + 1 ≠ H.ACTION_NONE ∧ k + 2 ≠ H.ACTION_NONE := by
      rcases c1 with c1 | c1 <;> subst c1
      · exact ⟨Ne.symm a4, Ne.symm a5, Ne.symm a6⟩
      · exact ⟨Ne.symm a7, Ne.symm a8, Ne.symm a9⟩
    cases targ with
    | none => cases h
    | some t =>
      simp only at h
      split_ifs at h
      · cases h; exact absurd hk hbase.2.1
      · cases h; exact absurd hk hbase.2.2
      · cases h; exact absurd hk hbase.1
      · cases h; exact absurd hk hbase.1
  · rw [if_neg c1] at h
    by_cases c2 : k = H.ACTION_EXEC
    · rw [if_pos c2] at h
      subst c2
      cases targ with
      | none => cases h
      | some t =>
        cases h
        exact absurd hk.symm a11
    · rw [if_neg c2] at h
      by_cases c3 : k = H.ACTION_INVALID
      · rw [if_pos c3] at h
        cases h
      · rw [if_neg c3] at h
        cases targ with
        | none =>
          cases h
          exact ⟨hk, rfl⟩
        | some t => cases h

/-- C13, as stated, at a concrete input: the text made of a newline followed
by `foo` is neither empty nor newline-only, and its command word is none of
the twelve, yet `parse_action` does not fail with InvalidAction: it yields an
Action of kind NONE. -/
theorem newline_then_text_counterexample :
    newline_only "\nfoo".toList = false ∧
    "\nfoo".toList ≠ [] ∧
    command_word "\nfoo".toList ∉ command_words ∧
    parse_action progman_h [] "\nfoo".toList = .ok ⟨progman_h.ACTION_NONE, 0, none⟩ ∧
    parse_action progman_h [] "\nfoo".toList ≠ .error .InvalidAction := by
  refine ⟨by decide, by decide, by decide, by decide, by decide⟩

/-- C13, amended: `parse_action` classifies the command word by exact
case-sensitive match. It yields kind NONE if and only if the text has no
space and is empty or begins with a newline; and every text whose command
word is none of the twelve listed words, is not empty and does not begin with
a newline (for example `Cycle`) is INVALID and fails with InvalidAction,
producing no Action. -/
theorem command_word_classification (H : Header) (hH : H.enumerated) (label text : CString) :
    ((∃ act, parse_action H label text = .ok act ∧ act.action = H.ACTION_NONE) ↔
      (' ' ∉ text ∧ (text = [] ∨ text.head? = some '\n'))) ∧
    (command_word text ∉ command_words → command_word text ≠ [] →
      (command_word text).head? ≠ some '\n' →
      parse_action H label text = .error .InvalidAction) := by
  have hne := none_ne_kinds H hH
  have hI : H.ACTION_INVALID ≠ H.ACTION_DESK ∧ H.ACTION_INVALID ≠ H.ACTION_MOVE ∧
      H.ACTION_INVALID ≠ H.ACTION_EXEC :=
    ⟨kind_ne H hH.1 1 4 _ _ rfl rfl (by decide), kind_ne H hH.1 1 7 _ _ rfl rfl (by decide),
      kind_ne H hH.1 1 11 _ _ rfl rfl (by decide)⟩
  constructor
  · constructor
    · rintro ⟨act, hact, hkind⟩
      rw [parse_action_eq] at hact
      obtain ⟨hk, htarg⟩ := parse_action_switch_none H hH _ _ act hact hkind
      have hword := command_kind_none H hH _ hk
      unfold command_rest at htarg
      unfold command_word at hword
      cases hs : strchr text ' ' with
      | some p => simp [hs] at htarg
      | none =>
        simp only [hs] at hword
        exact ⟨strchr_none hs, hword.symm⟩
    · rintro ⟨hsp, htext⟩
      have hs := strchr_absent text ' ' hsp
      have hw : command_word text = text := by simp [command_word, hs]
      have hr : command_rest text = none := by simp [command_rest, hs]
      have hnot : text ∉ command_words := by
        rcases htext with h | h
        · subst h; decide
        · intro hmem
          simp only [command_words, List.mem_cons, List.mem_singleton, List.not_mem_nil,
            or_false] at hmem
          rcases hmem with h' | h' | h' | h' | h' | h' | h' | h' | h' | h' | h' | h' <;>
            (subst h'; exact absurd h (by decide))
      refine ⟨⟨H.ACTION_NONE, 0, none⟩, ?_, rfl⟩
      rw [parse_action_eq, hw, hr, command_kind_unlisted H text hnot,
        if_pos (by rcases htext with h | h; exact Or.inr h; exact Or.inl h)]
      unfold parse_action_switch
      rw [if_neg (by
        rintro (h | h)
        · exact hne.2.2.2.1 h
        · exact hne.2.2.2.2.2.2.1 h),
        if_neg hne.2.2.2.2.2.2.2.2.2.2.1, if_neg hne.1]
  · intro hw hnil hhead
    rw [parse_action_eq, command_kind_unlisted H _ hw,
      if_neg (by rintro (h | h); exact hhead h; exact hnil h)]
    unfold parse_action_switch
    rw [if_neg (by
      rintro (h | h)
      · exact hI.1 h
      · exact hI.2.1 h), if_neg hI.2.2, if_pos rfl]

/-- C13, amended, at concrete inputs: the empty text and a newline are NONE,
`Cycle` is invalid. -/
theorem command_word_classification_witness :
    ((∃ act, parse_action progman_h [] "\n".toList = .ok act ∧
        act.action = progman_h.ACTION_NONE) ↔
      (' ' ∉ "\n".toList ∧ ("\n".toList = [] ∨ "\n".toList.head? = some '\n'))) ∧
    parse_action progman_h [] "Cycle".toList = .error .InvalidAction :=
  ⟨(command_word_classification progman_h (by decide) [] "\n".toList).1,
    (command_word_classification progman_h (by decide) [] "Cycle".toList).2
      (by decide) (by decide) (by decide)⟩

/-! ## C14 -/

theorem default_kind (H : Header) (hH : H.kinds.Nodup) (i : Nat) (k : Int)
    (hk : H.kinds[i]? = some k) (hi : i ≠ 1 ∧ i ≠ 4 ∧ i ≠ 7 ∧ i ≠ 11) :
    k ≠ H.ACTION_DESK ∧ k ≠ H.ACTION_MOVE ∧ k ≠ H.ACTION_EXEC ∧ k ≠ H.ACTION_INVALID :=
  ⟨kind_ne H hH i 4 k _ hk rfl hi.2.1, kind_ne H hH i 7 k _ hk rfl hi.2.2.1,
    kind_ne H hH i 11 k _ hk rfl hi.2.2.2, kind_ne H hH i 1 k _ hk rfl hi.1⟩

theorem parse_action_switch_default (H : Header) (k : Int) (targ : Option CString)
    (hk : k ≠ H.ACTION_DESK ∧ k ≠ H.ACTION_MOVE ∧ k ≠ H.ACTION_EXEC ∧ k ≠ H.ACTION_INVALID) :
    parse_action_switch H k targ =
      match targ with
      | some _ => .error .UnexpectedArgument
      | none => .ok ⟨k, 0, none⟩ := by
  unfold parse_action_switch
  rw [if_neg (by rintro (h | h); exact hk.1 h; exact hk.2.1 h), if_neg hk.2.2.1,
    if_neg hk.2.2.2]

theorem parse_action_no_argument (H : Header) (label w : CString) (k : Int)
    (hsp : ' ' ∉ w) (hkind : command_kind H w = k)
    (hk : k ≠ H.ACTION_DESK ∧ k ≠ H.ACTION_MOVE ∧ k ≠ H.ACTION_EXEC ∧ k ≠ H.ACTION_INVALID) :
    parse_action H label w = .ok ⟨k, 0, none⟩ ∧
    ∀ r, parse_action H label (w ++ ' ' :: r) = .error .UnexpectedArgument := by
  constructor
  · have hs := strchr_absent w ' ' hsp
    rw [parse_action_eq]
    simp only [command_word, command_rest, hs, hkind]
    rw [parse_action_switch_default H k none hk]
  · intro r
    have hs := strchr_split ' ' w r hsp
    rw [parse_action_eq]
    simp only [command_word, command_rest, hs, hkind]
    rw [parse_action_switch_default H k (some r) hk]

/-- C14: for every kind that takes no argument (cycle, reverse_cycle, close,
launcher, restart, quit, drag, fullscreen, iconify, and NONE, whose command
word is empty or begins with a newline), `parse_action` succeeds with that
kind, integer argument 0 and no string argument when the text is the command
word alone, and fails with UnexpectedArgument, producing no Action, when a
space follows the command word, whatever the remainder (the empty one
included). -/
theorem parse_action_no_argument_kinds (H : Header) (hH : H.kinds.Nodup) (label : CString) :
    (∀ p ∈ no_argument_words H,
      parse_action H label p.1 = .ok ⟨p.2, 0, none⟩ ∧
      ∀ r, parse_action H label (p.1 ++ ' ' :: r) = .error .UnexpectedArgument) ∧
    (∀ w, ' ' ∉ w → (w = [] ∨ w.head? = some '\n') →
      parse_action H label w = .ok ⟨H.ACTION_NONE, 0, none⟩ ∧
      ∀ r, parse_action H label (w ++ ' ' :: r) = .error .UnexpectedArgument) := by
  obtain ⟨k1, k2, _, k4, _, k6, k7, k8, k9, k10, k11, _⟩ := command_kind_listed H
  constructor
  · intro p hp
    simp only [no_argument_words, List.mem_cons, List.mem_singleton, List.not_mem_nil,
      or_false] at hp
    rcases hp with h | h | h | h | h | h | h | h | h <;> subst h
    · exact parse_action_no_argument H label _ _ (by simp) k1
        (default_kind H hH 2 _ rfl (by decide))
    · exact parse_action_no_argument H label _ _ (by simp) k2
        (default_kind H hH 3 _ rfl (by decide))
    · exact parse_action_no_argument H label _ _ (by simp) k4
        (default_kind H hH 10 _ rfl (by decide))
    · exact parse_action_no_argument H label _ _ (by simp) k6
        (default_kind H hH 12 _ rfl (by decide))
    · exact parse_action_no_argument H label _ _ (by simp) k7
        (default_kind H hH 13 _ rfl (by decide))
    · exact parse_action_no_argument H label _ _ (by simp) k8
        (default_kind H hH 14 _ rfl (by decide))
    · exact parse_action_no_argument H label _ _ (by simp) k9
        (default_kind H hH 15 _ rfl (by decide))
    · exact parse_action_no_argument H label _ _ (by simp) k10
        (default_kind H hH 16 _ rfl (by decide))
    · exact parse_action_no_argument H label _ _ (by simp) k11
        (default_kind H hH 17 _ rfl (by decide))
  · intro w hsp hw
    have hnot : w ∉ command_words := by
      rcases hw with h | h
      · subst h; decide
      · intro hmem
        simp only [command_words, List.mem_cons, List.mem_singleton, List.not_mem_nil,
          or_false] at hmem
        rcases hmem with h' | h' | h' | h' | h' | h' | h' | h' | h' | h' | h' | h' <;>
          (subst h'; exact absurd h (by decide))
    have hkind : command_kind H w = H.ACTION_NONE := by
      rw [command_kind_unlisted H w hnot,
        if_pos (by rcases hw with h | h; exact Or.inr h; exact Or.inl h)]
    exact parse_action_no_argument H label w _ hsp hkind
      (default_kind H hH 0 _ rfl (by decide))

/-- C14 at concrete inputs: `close` alone, `close` followed by a space, the
empty text and a lone space. -/
theorem parse_action_no_argument_kinds_witness :
    parse_action progman_h [] "close".toList = .ok ⟨progman_h.ACTION_CLOSE, 0, none⟩ ∧
    parse_action progman_h [] ("close".toList ++ ' ' :: []) = .error .UnexpectedArgument ∧
    parse_action progman_h [] [] = .ok ⟨progman_h.ACTION_NONE, 0, none⟩ ∧
    parse_action progman_h [] ([] ++ ' ' :: []) = .error .UnexpectedArgument :=
  ⟨((parse_action_no_argument_kinds progman_h (by decide) []).1
      ("close".toList, progman_h.ACTION_CLOSE) (by decide)).1,
    ((parse_action_no_argument_kinds progman_h (by decide) []).1
      ("close".toList, progman_h.ACTION_CLOSE) (by decide)).2 [],
    ((parse_action_no_argument_kinds progman_h (by decide) []).2 [] (by decide) (by decide)).1,
    ((parse_action_no_argument_kinds progman_h (by decide) []).2 [] (by decide) (by decide)).2 []⟩

/-! ## C15 -/

/-- C15, as stated, at a concrete state: in Cycling(65289) with no cycle
anchor set and an iconified client focused, the release of another key ends
the gesture but does not uniconify the focused client: `uniconify_client` is
only called inside `if (cycle_head)`. -/
theorem release_without_anchor_counterexample :
    (⟨7, 4, 0⟩ : client_t).state &&& sample_clients.STATE_ICONIFIED ≠ 0 ∧
    handle_key_event progman_h sample_clients
      ⟨[⟨65289, 8, 0, 0, 2, 0, none⟩], 65289, none, some ⟨7, 4, 0⟩, 0, 4, false,
        [Call.XGrabKeyboard 1]⟩
      ⟨KeyRelease, 65513, 8, 9⟩ =
      ⟨[⟨65289, 8, 0, 0, 2, 0, none⟩], 0, none, some ⟨7, 4, 0⟩, 0, 4, false,
        [Call.XGrabKeyboard 1, Call.XUngrabKeyboard, Call.XAllowEvents_ReplayKeyboard 9,
          Call.XFlush]⟩ ∧
    Call.uniconify_client ⟨7, 4, 0⟩ ∉
      (handle_key_event progman_h sample_clients
        ⟨[⟨65289, 8, 0, 0, 2, 0, none⟩], 65289, none, some ⟨7, 4, 0⟩, 0, 4, false,
          [Call.XGrabKeyboard 1]⟩
        ⟨KeyRelease, 65513, 8, 9⟩).trace := by
  refine ⟨by decide, by decide, by decide⟩

/-- C15, amended: in state Cycling(t) (cycle_key = t, t non-zero), for every
key-release event whose symbol differs from t, `handle_key_event` ends the
gesture: cycle_key becomes 0, the keyboard grab is released and the event
replayed, the cycle anchor is cleared, the focused client is uniconified if
a cycle anchor was set and the client is iconified, and nothing else
happens: no binding is resolved or dispatched from that event, whatever the
binding table contains. -/
theorem release_ends_cycle (H : Header) (C : Clients) (r : Router) (e : XKeyEvent)
    (hcyc : r.cycle_key ≠ 0) (hrel : e.type = KeyRelease)
    (hkey : (e.keysym : Int) ≠ r.cycle_key) :
    handle_key_event H C r e =
      { r with
        cycle_key := 0,
        cycle_head := none,
        trace := r.trace ++
          [Call.XUngrabKeyboard, Call.XAllowEvents_ReplayKeyboard e.time, Call.XFlush] ++
          (match r.cycle_head, r.focused with
            | some _, some f =>
              if f.state &&& C.STATE_ICONIFIED ≠ 0 then [Call.uniconify_client f] else []
            | _, _ => []) } ∧
    keyboard_grabbed (handle_key_event H C r e).trace = false := by
  have hcond : r.cycle_key ≠ 0 ∧ (e.keysym : Int) ≠ r.cycle_key ∧ e.type = KeyRelease :=
    ⟨hcyc, hkey, hrel⟩
  have heq : handle_key_event H C r e =
      { r with
        cycle_key := 0,
        cycle_head := none,
        trace := r.trace ++
          [Call.XUngrabKeyboard, Call.XAllowEvents_ReplayKeyboard e.time, Call.XFlush] ++
          (match r.cycle_head, r.focused with
            | some _, some f =>
              if f.state &&& C.STATE_ICONIFIED ≠ 0 then [Call.uniconify_client f] else []
            | _, _ => []) } := by
    unfold handle_key_event
    simp only [if_pos hcond]
    cases hh : r.cycle_head with
    | none => simp [hh]
    | some h =>
      cases hf : r.focused with
      | none => simp [hh, hf]
      | some f =>
        by_cases hi : f.state &&& C.STATE_ICONIFIED ≠ 0
        · simp [hh, hf, hi]
        · simp [hh, hf, hi]
  refine ⟨heq, ?_⟩
  rw [heq]
  simp only [keyboard_grabbed, List.foldl_append, List.foldl_cons, List.foldl_nil]
  cases r.cycle_head with
  | none => simp
  | some h =>
    cases r.focused with
    | none => simp
    | some f =>
      by_cases hi : f.state &&& C.STATE_ICONIFIED ≠ 0
      · simp [hi]
      · simp [hi]

/-- C15, amended, at a concrete state: Alt is released during a cycle
started with Alt+Tab, with the anchor set and the focused client
iconified. -/
theorem release_ends_cycle_witness :
    handle_key_event progman_h sample_clients
      ⟨[⟨65289, 8, 0, 0, 2, 0, none⟩], 65289, some ⟨1, 0, 0⟩, some ⟨7, 4, 0⟩, 0, 4, false,
        [Call.XGrabKeyboard 1]⟩
      ⟨KeyRelease, 65513, 8, 9⟩ =
      { (⟨[⟨65289, 8, 0, 0, 2, 0, none⟩], 65289, some ⟨1, 0, 0⟩, some ⟨7, 4, 0⟩, 0, 4, false,
          [Call.XGrabKeyboard 1]⟩ : Router) with
        cycle_key := 0,
        cycle_head := none,
        trace := [Call.XGrabKeyboard 1] ++
          [Call.XUngrabKeyboard, Call.XAllowEvents_ReplayKeyboard 9, Call.XFlush] ++
          (match (some ⟨1, 0, 0⟩ : Option client_t), (some ⟨7, 4, 0⟩ : Option client_t) with
            | some _, some f =>
              if f.state &&& sample_clients.STATE_ICONIFIED ≠ 0 then
                [Call.uniconify_client f] else []
            | _, _ => []) } ∧
    keyboard_grabbed (handle_key_event progman_h sample_clients
      ⟨[⟨65289, 8, 0, 0, 2, 0, none⟩], 65289, some ⟨1, 0, 0⟩, some ⟨7, 4, 0⟩, 0, 4, false,
        [Call.XGrabKeyboard 1]⟩
      ⟨KeyRelease, 65513, 8, 9⟩).trace = false :=
  release_ends_cycle progman_h sample_clients _ ⟨KeyRelease, 65513, 8, 9⟩
    (by decide) (by decide) (by decide)

/-! ## C16 -/

theorem list_set_same {α : Type} (l : List α) (i : Nat) (a : α) (h : l[i]? = some a) :
    l.set i a = l := by
  induction l generalizing i with
  | nil => simp
  | cons x xs ih =>
    cases i with
    | zero =>
      simp only [List.getElem?_cons_zero, Option.some.injEq] at h
      subst h
      rfl
    | succ j =>
      simp only [List.getElem?_cons_succ] at h
      simp [List.set, ih j h]

theorem lookup_some (H : Header) (key_actions : List action_t) (kc state i : Nat)
    (h : handle_key_event_lookup H key_actions kc state = some i) :
    ∃ a, key_actions[i]? = some a ∧ a.type = H.BINDING_TYPE_KEYBOARD ∧ a.key = kc ∧
      a.mod = state := by
  obtain ⟨a, ha, htest, _⟩ := find_binding_eq_some h
  simp only [Bool.and_eq_true, beq_iff_eq] at htest
  exact ⟨a, ha, htest.1.1, htest.1.2, htest.2⟩

theorem keyboard_grabbed_append (t1 t2 : List Call)
    (h2 : ∀ c ∈ t2, (∀ time, c ≠ Call.XGrabKeyboard time) ∧ c ≠ Call.XUngrabKeyboard) :
    keyboard_grabbed (t1 ++ t2) = keyboard_grabbed t1 := by
  unfold keyboard_grabbed
  rw [List.foldl_append]
  generalize List.foldl _ false t1 = held
  induction t2 generalizing held with
  | nil => rfl
  | cons c rest ih =>
    obtain ⟨hg, hu⟩ := h2 c (by simp)
    have hrest := ih (fun d hd => h2 d (by simp [hd]))
    simp only [List.foldl_cons]
    cases c with
    | XGrabKeyboard t => exact absurd rfl (hg t)
    | XUngrabKeyboard => exact absurd rfl hu
    | _ => exact hrest held

theorem cycle_calls_no_grab (C : Clients) (anchor : client_t) (focused : Option client_t) :
    ∀ c ∈ cycle_calls C anchor focused,
      (∀ time, c ≠ Call.XGrabKeyboard time) ∧ c ≠ Call.XUngrabKeyboard := by
  intro c hc
  unfold cycle_calls at hc
  cases hn : C.next_client_for_focus anchor with
  | some next =>
    simp only [hn, List.mem_singleton] at hc
    subst hc
    simp
  | none =>
    cases focused with
    | none =>
      simp only [hn, List.append_nil, List.singleton_append, List.mem_cons,
        List.mem_singleton, List.not_mem_nil, or_false] at hc
      rcases hc with h | h <;> rw [h] <;> simp
    | some p =>
      simp [hn] at hc
      rcases hc with h | h | h <;> rw [h] <;> simp

/-- C16, as stated, at a concrete state: with no anchor set and no client
focused, a press of Alt+Tab bound to `cycle` takes the keyboard grab and sets
cycle_key, but the dispatch returns at once: no anchor is set and no client
is focused by it. -/
theorem cycle_without_focus_counterexample :
    handle_key_event_lookup progman_h [⟨65289, 8, 0, 0, 2, 0, none⟩] 65289 8 = some 0 ∧
    handle_key_event progman_h sample_clients
      (Router.idle [⟨65289, 8, 0, 0, 2, 0, none⟩] none 0 4) ⟨KeyPress, 65289, 8, 5⟩ =
      ⟨[⟨65289, 8, 0, 0, 2, 0, none⟩], 65289, none, none, 0, 4, false,
        [Call.XGrabKeyboard 5]⟩ ∧
    (handle_key_event progman_h sample_clients
      (Router.idle [⟨65289, 8, 0, 0, 2, 0, none⟩] none 0 4)
      ⟨KeyPress, 65289, 8, 5⟩).cycle_head = none ∧
    ∀ c, Call.focus_client c ∉ (handle_key_event progman_h sample_clients
      (Router.idle [⟨65289, 8, 0, 0, 2, 0, none⟩] none 0 4) ⟨KeyPress, 65289, 8, 5⟩).trace := by
  refine ⟨by decide, by decide, by decide, ?_⟩
  intro c
  have h : (handle_key_event progman_h sample_clients
      (Router.idle [⟨65289, 8, 0, 0, 2, 0, none⟩] none 0 4) ⟨KeyPress, 65289, 8, 5⟩).trace =
      [Call.XGrabKeyboard 5] := by decide
  rw [h]
  simp

/-- C16, amended: for every key-press event that resolves to a keyboard
binding of kind CYCLE or REVERSE_CYCLE with key t, `handle_key_event`
acquires the exclusive keyboard grab, sets cycle_key to t (the symbol of the
event) and then dispatches the action exactly once. When an anchor is set or
a client is focused, the dispatch makes the anchor the focused client if no
anchor was set, and focuses next_client_for_focus(anchor), or, when there is
none, inverts the client order, redraws the frame of the focused client and
focuses the anchor; with no anchor and no focused client the dispatch does
nothing. -/
theorem press_starts_cycle (H : Header) (C : Clients) (r : Router) (e : XKeyEvent)
    (i : Nat) (a : action_t)
    (hpress : e.type = KeyPress)
    (hl : handle_key_event_lookup H r.key_actions e.keysym e.state = some i)
    (ha : r.key_actions[i]? = some a)
    (hk : a.action = H.ACTION_CYCLE ∨ a.action = H.ACTION_REVERSE_CYCLE) :
    a.key = e.keysym ∧
    handle_key_event H C r e =
      (match (match r.cycle_head with
          | some h => some h
          | none => r.focused) with
        | none =>
          { r with cycle_key := a.key, trace := r.trace ++ [Call.XGrabKeyboard e.time] }
        | some anchor =>
          { r with
            cycle_key := a.key,
            cycle_head := some anchor,
            trace := r.trace ++ [Call.XGrabKeyboard e.time] ++
              cycle_calls C anchor r.focused }) ∧
    keyboard_grabbed (handle_key_event H C r e).trace = true := by
  obtain ⟨a', ha', _, hkey, _⟩ := lookup_some H r.key_actions e.keysym e.state i hl
  rw [ha] at ha'
  cases ha'
  have hne : ¬ (r.cycle_key ≠ 0 ∧ (e.keysym : Int) ≠ r.cycle_key ∧ e.type = KeyRelease) := by
    rintro ⟨_, _, h⟩
    rw [hpress] at h
    exact absurd h (by decide)
  have hset : r.key_actions.set i a = r.key_actions := list_set_same _ _ _ ha
  have heq : handle_key_event H C r e =
      (match (match r.cycle_head with
          | some h => some h
          | none => r.focused) with
        | none =>
          { r with cycle_key := a.key, trace := r.trace ++ [Call.XGrabKeyboard e.time] }
        | some anchor =>
          { r with
            cycle_key := a.key,
            cycle_head := some anchor,
            trace := r.trace ++ [Call.XGrabKeyboard e.time] ++
              cycle_calls C anchor r.focused }) := by
    have hp : ¬ (e.type ≠ KeyPress) := fun h => h hpress
    unfold handle_key_event
    dsimp only
    rw [if_neg hne]
    simp only [hl, if_neg hp, ha, if_pos hk]
    unfold take_action_slot
    simp only [ha]
    unfold take_action
    simp only [if_pos hk]
    cases hh : r.cycle_head with
    | some h =>
      cases hn : C.next_client_for_focus h with
      | some next => simp [hn, hset, cycle_calls]
      | none => simp [hn, hset, cycle_calls]
    | none =>
      cases hf : r.focused with
      | none => simp [hset]
      | some f =>
        cases hn : C.next_client_for_focus f with
        | some next => simp [hn, hset, cycle_calls]
        | none => simp [hn, hset, cycle_calls]
  refine ⟨hkey, heq, ?_⟩
  rw [heq]
  have hg : ∀ t : List Call, keyboard_grabbed (t ++ [Call.XGrabKeyboard e.time]) = true := by
    intro t
    simp [keyboard_grabbed, List.foldl_append]
  cases hh : r.cycle_head with
  | some h =>
    simp only
    rw [keyboard_grabbed_append _ _ (cycle_calls_no_grab C h r.focused)]
    exact hg _
  | none =>
    cases hf : r.focused with
    | none => exact hg _
    | some f =>
      simp only
      rw [keyboard_grabbed_append _ _ (cycle_calls_no_grab C f (some f))]
      exact hg _

/-- C16, amended, at a concrete state: Alt+Tab bound to `cycle` is pressed
with client 1 focused and no anchor set. -/
theorem press_starts_cycle_witness :
    (⟨65289, 8, 0, 0, 2, 0, none⟩ : action_t).key = (⟨KeyPress, 65289, 8, 5⟩ : XKeyEvent).keysym ∧
    handle_key_event progman_h sample_clients
      (Router.idle [⟨65289, 8, 0, 0, 2, 0, none⟩] (some ⟨1, 0, 0⟩) 0 4)
      ⟨KeyPress, 65289, 8, 5⟩ =
      ⟨[⟨65289, 8, 0, 0, 2, 0, none⟩], 65289, some ⟨1, 0, 0⟩, some ⟨1, 0, 0⟩, 0, 4, false,
        [Call.XGrabKeyboard 5, Call.focus_client ⟨2, 0, 0⟩]⟩ ∧
    keyboard_grabbed (handle_key_event progman_h sample_clients
      (Router.idle [⟨65289, 8, 0, 0, 2, 0, none⟩] (some ⟨1, 0, 0⟩) 0 4)
      ⟨KeyPress, 65289, 8, 5⟩).trace = true :=
  press_starts_cycle progman_h sample_clients
    (Router.idle [⟨65289, 8, 0, 0, 2, 0, none⟩] (some ⟨1, 0, 0⟩) 0 4)
    ⟨KeyPress, 65289, 8, 5⟩ 0 ⟨65289, 8, 0, 0, 2, 0, none⟩
    (by decide) (by decide) (by decide) (by decide)

/-! ## C17 -/

theorem take_action_cycle_key (H : Header) (C : Clients) (r : Router) (a : action_t) :
    (take_action H C r a).1.cycle_key = r.cycle_key := by
  unfold take_action
  by_cases c1 : a.action = H.ACTION_CYCLE ∨ a.action = H.ACTION_REVERSE_CYCLE
  · rw [if_pos c1]
    cases r.cycle_head with
    | some h =>
      dsimp only
      cases C.next_client_for_focus h with
      | some next => rfl
      | none => cases r.focused <;> rfl
    | none =>
      cases hf : r.focused with
      | none => rfl
      | some f =>
        dsimp only
        cases C.next_client_for_focus f with
        | some next => rfl
        | none => rfl
  · rw [if_neg c1]
    by_cases c2 : a.action = H.ACTION_DESK
    · rw [if_pos c2]
    · rw [if_neg c2]
      by_cases c3 : a.action = H.ACTION_DESK_NEXT
      · rw [if_pos c3]
        split_ifs <;> rfl
      · rw [if_neg c3]
        by_cases c4 : a.action = H.ACTION_DESK_PREVIOUS
        · rw [if_pos c4]
          split_ifs <;> rfl
        · rw [if_neg c4]
          by_cases c5 : a.action = H.ACTION_MOVE_NEXT ∨ a.action = H.ACTION_MOVE_PREVIOUS ∨
              a.action = H.ACTION_MOVE
          · rw [if_pos c5]
            cases r.focused <;> rfl
          · rw [if_neg c5]
            by_cases c6 : a.action = H.ACTION_CLOSE
            · rw [if_pos c6]
              cases r.focused <;> rfl
            · rw [if_neg c6]
              by_cases c7 : a.action = H.ACTION_EXEC
              · rw [if_pos c7]
              · rw [if_neg c7]
                by_cases c8 : a.action = H.ACTION_LAUNCHER
                · rw [if_pos c8]
                · rw [if_neg c8]
                  by_cases c9 : a.action = H.ACTION_RESTART
                  · rw [if_pos c9]
                  · rw [if_neg c9]
                    by_cases c10 : a.action = H.ACTION_QUIT
                    · rw [if_pos c10]
                    · rw [if_neg c10]

theorem take_action_slot_cycle_key (H : Header) (C : Clients) (r : Router) (i : Nat) :
    (take_action_slot H C r i).cycle_key = r.cycle_key := by
  unfold take_action_slot
  cases r.key_actions[i]? with
  | none => rfl
  | some a => exact take_action_cycle_key H C r a

/-- C17, as stated, at a concrete state: in Cycling(65289), the release of
the Alt key (symbol 65513) matches no entry of the table, yet it is not
ignored: it ends the cycle, so cycle_key and the anchor change and the
keyboard is ungrabbed. -/
theorem unmatched_release_counterexample :
    handle_key_event_lookup progman_h [⟨65289, 8, 0, 0, 2, 0, none⟩] 65513 8 = none ∧
    handle_key_event progman_h sample_clients
      ⟨[⟨65289, 8, 0, 0, 2, 0, none⟩], 65289, some ⟨1, 0, 0⟩, some ⟨2, 0, 0⟩, 0, 4, false,
        [Call.XGrabKeyboard 1, Call.focus_client ⟨2, 0, 0⟩]⟩
      ⟨KeyRelease, 65513, 8, 9⟩ =
      ⟨[⟨65289, 8, 0, 0, 2, 0, none⟩], 0, none, some ⟨2, 0, 0⟩, 0, 4, false,
        [Call.XGrabKeyboard 1, Call.focus_client ⟨2, 0, 0⟩, Call.XUngrabKeyboard,
          Call.XAllowEvents_ReplayKeyboard 9, Call.XFlush]⟩ ∧
    handle_key_event progman_h sample_clients
      ⟨[⟨65289, 8, 0, 0, 2, 0, none⟩], 65289, some ⟨1, 0, 0⟩, some ⟨2, 0, 0⟩, 0, 4, false,
        [Call.XGrabKeyboard 1, Call.focus_client ⟨2, 0, 0⟩]⟩
      ⟨KeyRelease, 65513, 8, 9⟩ ≠
      ⟨[⟨65289, 8, 0, 0, 2, 0, none⟩], 65289, some ⟨1, 0, 0⟩, some ⟨2, 0, 0⟩, 0, 4, false,
        [Call.XGrabKeyboard 1, Call.focus_client ⟨2, 0, 0⟩]⟩ := by
  refine ⟨by decide, by decide, by decide⟩

/-- C17, amended: ignored events change nothing. For every key event that is
a release not ending a cycle (the router is idle, or the released symbol
equals the cycle trigger t), and for every event, press or release, that
matches no KEYBOARD entry on (key_symbol, exact modifier state) and is not a
release that ends a cycle, `handle_key_event` returns with the globals as
they were: no action dispatched, no collaborator called, no grab or ungrab,
cycle_key and the cycle anchor unchanged. Likewise a press resolving to a
binding whose kind is not CYCLE/REVERSE_CYCLE leaves cycle_key unchanged. -/
theorem ignored_events (H : Header) (C : Clients) (r : Router) (e : XKeyEvent) :
    (e.type = KeyRelease → (r.cycle_key = 0 ∨ (e.keysym : Int) = r.cycle_key) →
      handle_key_event H C r e = r) ∧
    (handle_key_event_lookup H r.key_actions e.keysym e.state = none →
      ¬ (r.cycle_key ≠ 0 ∧ (e.keysym : Int) ≠ r.cycle_key ∧ e.type = KeyRelease) →
      handle_key_event H C r e = r) ∧
    (∀ i a, e.type = KeyPress →
      handle_key_event_lookup H r.key_actions e.keysym e.state = some i →
      r.key_actions[i]? = some a →
      a.action ≠ H.ACTION_CYCLE → a.action ≠ H.ACTION_REVERSE_CYCLE →
      (handle_key_event H C r e).cycle_key = r.cycle_key) := by
  refine ⟨?_, ?_, ?_⟩
  · intro hrel hidle
    have hne : ¬ (r.cycle_key ≠ 0 ∧ (e.keysym : Int) ≠ r.cycle_key ∧ e.type = KeyRelease) := by
      rintro ⟨h1, h2, _⟩
      rcases hidle with h | h
      · exact h1 h
      · exact h2 h
    have hp : e.type ≠ KeyPress := by
      rw [hrel]
      decide
    unfold handle_key_event
    dsimp only
    rw [if_neg hne]
    cases handle_key_event_lookup H r.key_actions e.keysym e.state with
    | none => rfl
    | some i => simp only [if_pos hp]
  · intro hl hne
    unfold handle_key_event
    dsimp only
    rw [if_neg hne]
    simp only [hl]
  · intro i a hpress hl ha h1 h2
    have hne : ¬ (r.cycle_key ≠ 0 ∧ (e.keysym : Int) ≠ r.cycle_key ∧ e.type = KeyRelease) := by
      rintro ⟨_, _, h⟩
      rw [hpress] at h
      exact absurd h (by decide)
    have hp : ¬ (e.type ≠ KeyPress) := fun h => h hpress
    have hk : ¬ (a.action = H.ACTION_CYCLE ∨ a.action = H.ACTION_REVERSE_CYCLE) := by
      rintro (h | h)
      · exact h1 h
      · exact h2 h
    unfold handle_key_event
    dsimp only
    rw [if_neg hne]
    simp only [hl, if_neg hp, ha, if_neg hk]
    by_cases hI : a.action = H.ACTION_ICONIFY
    · rw [if_pos hI]
      cases r.focused <;> rfl
    · rw [if_neg hI]
      by_cases hF : a.action = H.ACTION_FULL_SCREEN
      · rw [if_pos hF]
        cases r.focused with
        | none => rfl
        | some f =>
          dsimp only
          split_ifs <;> rfl
      · rw [if_neg hF]
        exact take_action_slot_cycle_key H C r i

/-- C17, amended, at concrete states: an idle release, an unmatched press,
and a press of a key bound to `close`. -/
theorem ignored_events_witness :
    handle_key_event progman_h sample_clients
      (Router.idle [⟨65289, 8, 0, 0, 2, 0, none⟩] (some ⟨1, 0, 0⟩) 0 4)
      ⟨KeyRelease, 65289, 8, 5⟩ =
      Router.idle [⟨65289, 8, 0, 0, 2, 0, none⟩] (some ⟨1, 0, 0⟩) 0 4 ∧
    handle_key_event progman_h sample_clients
      (Router.idle [⟨65289, 8, 0, 0, 2, 0, none⟩] (some ⟨1, 0, 0⟩) 0 4)
      ⟨KeyPress, 97, 0, 5⟩ =
      Router.idle [⟨65289, 8, 0, 0, 2, 0, none⟩] (some ⟨1, 0, 0⟩) 0 4 ∧
    (handle_key_event progman_h sample_clients
      (Router.idle [⟨113, 8, 0, 0, 10, 0, none⟩] (some ⟨1, 0, 0⟩) 0 4)
      ⟨KeyPress, 113, 8, 5⟩).cycle_key =
      (Router.idle [⟨113, 8, 0, 0, 10, 0, none⟩] (some ⟨1, 0, 0⟩) 0 4).cycle_key :=
  ⟨(ignored_events progman_h sample_clients
      (Router.idle [⟨65289, 8, 0, 0, 2, 0, none⟩] (some ⟨1, 0, 0⟩) 0 4)
      ⟨KeyRelease, 65289, 8, 5⟩).1 (by decide) (by decide),
    (ignored_events progman_h sample_clients
      (Router.idle [⟨65289, 8, 0, 0, 2, 0, none⟩] (some ⟨1, 0, 0⟩) 0 4)
      ⟨KeyPress, 97, 0, 5⟩).2.1 (by decide) (by decide),
    (ignored_events progman_h sample_clients
      (Router.idle [⟨113, 8, 0, 0, 10, 0, none⟩] (some ⟨1, 0, 0⟩) 0 4)
      ⟨KeyPress, 113, 8, 5⟩).2.2 0 ⟨113, 8, 0, 0, 10, 0, none⟩
      (by decide) (by decide) (by decide) (by decide) (by decide)⟩

/-! ## C18 -/

/-- C18: with a header whose ACTION_NONE is not -1 (the value the local
`iaction` of `bind_key` keeps), for a descriptor and an action text that
parse, the action being real: a new (non-overwrite) binding of the keyboard
class sends exactly one request, the asynchronous grab of the key code of
the parsed key with the parsed modifier mask; an overwrite of an existing
entry sends nothing; and a call for any other trigger class (the mouse
buttons) never sends a grab or an ungrab, whatever its arguments. -/
theorem bind_key_grab_requests (H : Header) (X : Xlib) (s : State) (type : Int)
    (d a : CString) (k mod button : Nat) (t : Action)
    (hnone : H.ACTION_NONE ≠ -1)
    (hd : bind_key_descriptor X d = .ok (k, mod, button))
    (ha : parse_action H d a = .ok t)
    (hreal : t.action ≠ H.ACTION_NONE) :
    (type = H.BINDING_TYPE_KEYBOARD →
      (∀ b ∈ s.key_actions, same_trigger type k mod button b = false) →
      (bind_key H X s type d a).2.calls =
        s.calls ++ [XCall.XGrabKey (X.XKeysymToKeycode k) mod]) ∧
    (∀ x, find_binding (same_trigger type k mod button) s.key_actions = some x →
      (bind_key H X s type d a).2.calls = s.calls ∧
      (bind_key H X s type d a).2.key_actions =
        s.key_actions.set x ⟨k, mod, button, type, t.action, t.iarg, t.sarg⟩) ∧
    (∀ key action, type ≠ H.BINDING_TYPE_KEYBOARD →
      (bind_key H X s type key action).2.calls = s.calls) := by
  have hne : ¬ ((-1 : Int) = H.ACTION_NONE) := fun h => hnone h.symm
  refine ⟨?_, ?_, ?_⟩
  · intro hkb hfresh
    rw [bind_key_ok H X s type d a k mod button t hd ha,
      bind_key_store_fresh H X s type k mod button t hfresh]
    simp [hkb]
  · intro x hx
    rw [bind_key_ok H X s type d a k mod button t hd ha,
      bind_key_store_found H X s type k mod button t x hx]
    simp [hne, written_slot, hreal]
  · intro key action hty
    unfold bind_key
    cases hd' : bind_key_descriptor X key with
    | error e => rfl
    | ok p =>
      obtain ⟨k', mod', button'⟩ := p
      cases ha' : parse_action H key action with
      | error e => rfl
      | ok t' =>
        simp only
        cases hf : find_binding (same_trigger type k' mod' button') s.key_actions with
        | none =>
          rw [bind_key_store_fresh H X s type k' mod' button' t' (find_binding_eq_none.mp hf)]
          simp [hty]
        | some x =>
          rw [bind_key_store_found H X s type k' mod' button' t' x hf]
          simp [hty]

/-- C18 at concrete inputs: `Alt+Tab` bound to `cycle`, bound again to
`close`, and `mouse1` bound to `drag` in another trigger class. -/
theorem bind_key_grab_requests_witness :
    (bind_key progman_h sample_xlib State.init progman_h.BINDING_TYPE_KEYBOARD
      "Alt+Tab".toList "cycle".toList).2.calls =
      State.init.calls ++ [XCall.XGrabKey (sample_xlib.XKeysymToKeycode 65289) 8] ∧
    (bind_key progman_h sample_xlib ⟨[⟨65289, 8, 0, 0, 2, 0, none⟩], [XCall.XGrabKey 9 8]⟩
      progman_h.BINDING_TYPE_KEYBOARD "Alt+Tab".toList "close".toList).2 =
      ⟨[⟨65289, 8, 0, 0, 10, 0, none⟩], [XCall.XGrabKey 9 8]⟩ ∧
    (bind_key progman_h sample_xlib State.init 1 "mouse1".toList "drag".toList).2.calls =
      State.init.calls :=
  ⟨(bind_key_grab_requests progman_h sample_xlib State.init progman_h.BINDING_TYPE_KEYBOARD
      "Alt+Tab".toList "cycle".toList 65289 8 0 ⟨2, 0, none⟩
      (by decide) (by decide) (by decide) (by decide)).1 (by decide) (by decide),
    by
      have h := (bind_key_grab_requests progman_h sample_xlib
        ⟨[⟨65289, 8, 0, 0, 2, 0, none⟩], [XCall.XGrabKey 9 8]⟩
        progman_h.BINDING_TYPE_KEYBOARD "Alt+Tab".toList "close".toList 65289 8 0
        ⟨10, 0, none⟩ (by decide) (by decide) (by decide) (by decide)).2.1 0 (by decide)
      decide,
    (bind_key_grab_requests progman_h sample_xlib State.init 1
      "Alt+Tab".toList "cycle".toList 65289 8 0 ⟨2, 0, none⟩
      (by decide) (by decide) (by decide) (by decide)).2.2
      "mouse1".toList "drag".toList (by decide)⟩

/-! ## C19 -/

/-- C19: for every desk count n >= 1 and every current desk c with
0 <= c <= n-1, dispatching DESK_NEXT calls goto_desk(c+1) when c < n-1 and
calls nothing when c = n-1, and dispatching DESK_PREVIOUS calls
goto_desk(c-1) when c > 0 and calls nothing when c = 0; nothing else changes,
and the desk index passed to goto_desk lies in [0, n-1]. -/
theorem desk_next_previous_clamped (H : Header) (C : Clients) (r : Router) (a : action_t)
    (n c : Int) (hH : H.kinds.Nodup)
    (_hn : 1 ≤ n) (hc0 : 0 ≤ c) (hc1 : c ≤ n - 1)
    (hcur : r.cur_desk = c) (hnd : r.ndesks = n) :
    (a.action = H.ACTION_DESK_NEXT →
      take_action H C r a =
        (if c < n - 1 then { r with trace := r.trace ++ [Call.goto_desk (c + 1)] } else r, a) ∧
      (c < n - 1 → 0 ≤ c + 1 ∧ c + 1 ≤ n - 1) ∧
      (c = n - 1 → (take_action H C r a).1 = r)) ∧
    (a.action = H.ACTION_DESK_PREVIOUS →
      take_action H C r a =
        (if c > 0 then { r with trace := r.trace ++ [Call.goto_desk (c - 1)] } else r, a) ∧
      (c > 0 → 0 ≤ c - 1 ∧ c - 1 ≤ n - 1) ∧
      (c = 0 → (take_action H C r a).1 = r)) := by
  have d52 : H.ACTION_DESK_NEXT ≠ H.ACTION_CYCLE :=
    kind_ne H hH 5 2 _ _ rfl rfl (by decide)
  have d53 : H.ACTION_DESK_NEXT ≠ H.ACTION_REVERSE_CYCLE :=
    kind_ne H hH 5 3 _ _ rfl rfl (by decide)
  have d54 : H.ACTION_DESK_NEXT ≠ H.ACTION_DESK :=
    kind_ne H hH 5 4 _ _ rfl rfl (by decide)
  have d62 : H.ACTION_DESK_PREVIOUS ≠ H.ACTION_CYCLE :=
    kind_ne H hH 6 2 _ _ rfl rfl (by decide)
  have d63 : H.ACTION_DESK_PREVIOUS ≠ H.ACTION_REVERSE_CYCLE :=
    kind_ne H hH 6 3 _ _ rfl rfl (by decide)
  have d64 : H.ACTION_DESK_PREVIOUS ≠ H.ACTION_DESK :=
    kind_ne H hH 6 4 _ _ rfl rfl (by decide)
  have d65 : H.ACTION_DESK_PREVIOUS ≠ H.ACTION_DESK_NEXT :=
    kind_ne H hH 6 5 _ _ rfl rfl (by decide)
  constructor
  · intro hk
    have heq : take_action H C r a =
        (if c < n - 1 then { r with trace := r.trace ++ [Call.goto_desk (c + 1)] } else r,
          a) := by
      unfold take_action
      rw [hk, if_neg (by rintro (h | h); exact d52 h; exact d53 h), if_neg d54, if_pos rfl,
        hcur, hnd]
      split_ifs <;> rfl
    refine ⟨heq, fun h => ⟨by omega, by omega⟩, fun h => ?_⟩
    rw [heq, if_neg (by omega)]
  · intro hk
    have heq : take_action H C r a =
        (if c > 0 then { r with trace := r.trace ++ [Call.goto_desk (c - 1)] } else r,
          a) := by
      unfold take_action
      rw [hk, if_neg (by rintro (h | h); exact d62 h; exact d63 h), if_neg d64, if_neg d65,
        if_pos rfl, hcur]
      split_ifs <;> rfl
    refine ⟨heq, fun h => ⟨by omega, by omega⟩, fun h => ?_⟩
    rw [heq, if_neg (by omega)]

/-- C19 at concrete states: four desks, DESK_NEXT from desk 2 and from desk
3, DESK_PREVIOUS from desk 0. -/
theorem desk_next_previous_clamped_witness :
    take_action progman_h sample_clients (Router.idle [] none 2 4) ⟨97, 0, 0, 0, 5, 0, none⟩ =
      (⟨[], 0, none, none, 2, 4, false, [Call.goto_desk 3]⟩, ⟨97, 0, 0, 0, 5, 0, none⟩) ∧
    (take_action progman_h sample_clients (Router.idle [] none 3 4)
      ⟨97, 0, 0, 0, 5, 0, none⟩).1 = Router.idle [] none 3 4 ∧
    (take_action progman_h sample_clients (Router.idle [] none 0 4)
      ⟨97, 0, 0, 0, 6, 0, none⟩).1 = Router.idle [] none 0 4 :=
  ⟨((desk_next_previous_clamped progman_h sample_clients (Router.idle [] none 2 4)
      ⟨97, 0, 0, 0, 5, 0, none⟩ 4 2 (by decide) (by decide) (by decide) (by decide)
      (by decide) (by decide)).1 (by decide)).1,
    ((desk_next_previous_clamped progman_h sample_clients (Router.idle [] none 3 4)
      ⟨97, 0, 0, 0, 5, 0, none⟩ 4 3 (by decide) (by decide) (by decide) (by decide)
      (by decide) (by decide)).1 (by decide)).2.2 (by decide),
    ((desk_next_previous_clamped progman_h sample_clients (Router.idle [] none 0 4)
      ⟨97, 0, 0, 0, 6, 0, none⟩ 4 0 (by decide) (by decide) (by decide) (by decide)
      (by decide) (by decide)).2 (by decide)).2.2 (by decide)⟩

/-! ## C20 -/

/-- C20, at the failing input: `bind_key(BINDING_TYPE_KEYBOARD, "mouse1",
"cycle")` on the empty table stores a keyboard entry with key symbol 0; from
the idle router over that table, a press whose key symbol is 0 (NoSymbol)
with no modifiers resolves to it, takes the exclusive keyboard grab and sets
cycle_key to 0, so the grab is held while cycle_key is zero; and the release
of another key then leaves the grab in place, since the end-of-cycle test
starts with `cycle_key`. -/
theorem grab_held_with_zero_cycle_key :
    (bind_key progman_h sample_xlib State.init progman_h.BINDING_TYPE_KEYBOARD
      "mouse1".toList "cycle".toList).2.key_actions = [⟨0, 0, 1, 0, 2, 0, none⟩] ∧
    (Router.idle [⟨0, 0, 1, 0, 2, 0, none⟩] (some ⟨1, 0, 0⟩) 0 4).cycle_key = 0 ∧
    keyboard_grabbed (Router.idle [⟨0, 0, 1, 0, 2, 0, none⟩] (some ⟨1, 0, 0⟩) 0 4).trace = false ∧
    handle_key_events progman_h sample_clients
      (Router.idle [⟨0, 0, 1, 0, 2, 0, none⟩] (some ⟨1, 0, 0⟩) 0 4)
      [⟨KeyPress, 0, 0, 5⟩] =
      ⟨[⟨0, 0, 1, 0, 2, 0, none⟩], 0, some ⟨1, 0, 0⟩, some ⟨1, 0, 0⟩, 0, 4, false,
        [Call.XGrabKeyboard 5, Call.focus_client ⟨2, 0, 0⟩]⟩ ∧
    (handle_key_events progman_h sample_clients
      (Router.idle [⟨0, 0, 1, 0, 2, 0, none⟩] (some ⟨1, 0, 0⟩) 0 4)
      [⟨KeyPress, 0, 0, 5⟩]).cycle_key = 0 ∧
    keyboard_grabbed (handle_key_events progman_h sample_clients
      (Router.idle [⟨0, 0, 1, 0, 2, 0, none⟩] (some ⟨1, 0, 0⟩) 0 4)
      [⟨KeyPress, 0, 0, 5⟩]).trace = true ∧
    keyboard_grabbed (handle_key_events progman_h sample_clients
      (Router.idle [⟨0, 0, 1, 0, 2, 0, none⟩] (some ⟨1, 0, 0⟩) 0 4)
      [⟨KeyPress, 0, 0, 5⟩, ⟨KeyRelease, 0, 0, 6⟩, ⟨KeyRelease, 65513, 0, 7⟩]).trace = true := by
  refine ⟨by decide, by decide, by decide, by decide, by decide, by decide, by decide⟩

end Win31wm
